import Mathlib

/-!
Verification of the curve-fitting core of the p14_gurkaynak_sack_wright_2007
repository against its natural-language specification.

The Python sources are shallowly embedded in Lean:
machine floats become exact rationals where the code only performs field
operations and comparisons, and real numbers where the code takes logs and
exponentials; pandas timestamps become a civil-date structure with an
explicit day ordinal; numpy arrays become lists; exceptions become an
explicit error type.  Every definition is translated line by line from the
indicated source file.
-/

/-! ## Calendar arithmetic (embedding of pandas Timestamp / DateOffset / MonthEnd) -/

/-- A civil (Gregorian) calendar date, as carried by pandas timestamps. -/
structure CivDate where
  y : ℕ
  m : ℕ
  d : ℕ
deriving DecidableEq, Repr

/-- Gregorian leap-year rule. -/
def isLeapYear (y : ℕ) : Bool :=
  (y % 4 == 0 && y % 100 != 0) || (y % 400 == 0)

/-- Number of days in a given month of a given year. -/
def daysInMonth (y m : ℕ) : ℕ :=
  if m = 1 then 31
  else if m = 2 then (if isLeapYear y then 29 else 28)
  else if m = 3 then 31
  else if m = 4 then 30
  else if m = 5 then 31
  else if m = 6 then 30
  else if m = 7 then 31
  else if m = 8 then 31
  else if m = 9 then 30
  else if m = 10 then 31
  else if m = 11 then 30
  else 31

/-- Days in year y that precede the first day of month m. -/
def daysBeforeMonth (y m : ℕ) : ℕ :=
  let base :=
    if m = 1 then 0
    else if m = 2 then 31
    else if m = 3 then 59
    else if m = 4 then 90
    else if m = 5 then 120
    else if m = 6 then 151
    else if m = 7 then 181
    else if m = 8 then 212
    else if m = 9 then 243
    else if m = 10 then 273
    else if m = 11 then 304
    else 334
  base + (if 3 ≤ m ∧ isLeapYear y then 1 else 0)

/-- Proleptic-Gregorian day ordinal (day count since 0001-01-00), so that
differences of ordinals are exactly the day counts pandas reports for
timestamp subtraction. -/
def toOrdinal (dt : CivDate) : ℕ :=
  365 * (dt.y - 1) + (dt.y - 1) / 4 - (dt.y - 1) / 100 + (dt.y - 1) / 400
    + daysBeforeMonth dt.y dt.m + (dt.d - 1)

/-- Timestamp comparison (by instant), as pandas compares timestamps. -/
def dateLE (a b : CivDate) : Prop := toOrdinal a ≤ toOrdinal b

/-- Strict timestamp comparison. -/
def dateLT (a b : CivDate) : Prop := toOrdinal a < toOrdinal b

instance : DecidablePred fun p : CivDate × CivDate => dateLE p.1 p.2 := by
  intro p; unfold dateLE; infer_instance

instance (a b : CivDate) : Decidable (dateLE a b) := by
  unfold dateLE; infer_instance

instance (a b : CivDate) : Decidable (dateLT a b) := by
  unfold dateLT; infer_instance

/-- Embedding of pandas DateOffset(months=k): shift the month by k, clamping
the day of month to the length of the target month. -/
def addMonths (dt : CivDate) (k : ℤ) : CivDate :=
  let t : ℤ := (dt.y : ℤ) * 12 + (dt.m : ℤ) - 1 + k
  let y2 : ℕ := (t / 12).toNat
  let m2 : ℕ := (t % 12 + 1).toNat
  ⟨y2, m2, min dt.d (daysInMonth y2 m2)⟩

/-- Embedding of pandas MonthEnd(0): roll the date forward to the end of its
month (a date already at month end stays put). -/
def monthEnd0 (dt : CivDate) : CivDate :=
  ⟨dt.y, dt.m, daysInMonth dt.y dt.m⟩

/-- Comparison of the month periods of two dates, as in
d.to_period("M") <= maturity.to_period("M"). -/
def periodLE (a b : CivDate) : Prop :=
  a.y < b.y ∨ (a.y = b.y ∧ a.m ≤ b.m)

instance (a b : CivDate) : Decidable (periodLE a b) := by
  unfold periodLE; infer_instance

/-- The error taxonomy of the specification: malformed data, invalid
configuration parameters, and optimizer non-convergence.  Python raises
KeyError/ValueError/RuntimeError respectively. -/
inductive CurveError where
  | dataError
  | configError
  | fitError
deriving DecidableEq, Repr

namespace Gsw2006

/-! ## Embedding of src/gsw2006_yield_curve.py: gurkaynak_sack_wright_filters

One record of the consolidated quote table, with the columns the filter
reads.  The quote date caldt is stored as its day ordinal. -/

structure SecurityRow where
  days_to_maturity : ℤ
  caldt : ℤ
  run : ℤ
  itype : ℤ
  original_maturity : ℚ
  callable : Bool
deriving DecidableEq, Repr

/-- Day ordinal of 1980-01-01, the on-the-run filter cutoff. -/
def d19800101 : ℤ := toOrdinal ⟨1980, 1, 1⟩

/-- Day ordinal of 1995-01-02 = cutoff_date - DateOffset(years=1), the start
of the 20-year-bond weight decay window. -/
def d19950102 : ℤ := toOrdinal ⟨1995, 1, 2⟩

/-- Day ordinal of 1996-01-02, the 20-year-bond exclusion cutoff. -/
def d19960102 : ℤ := toOrdinal ⟨1996, 1, 2⟩

/-- Weight assigned to a row by filter 4 of gurkaynak_sack_wright_filters:
start from 1.0, linearly decay 20-year bonds over the year ending
1996-01-02, and zero out 20-year bonds after the cutoff. -/
def gswWeight (r : SecurityRow) : ℚ :=
  let decayDays : ℤ := d19960102 - d19950102
  let w0 : ℚ := 1
  let w1 : ℚ :=
    if r.original_maturity = 20 ∧ d19950102 ≤ r.caldt ∧ r.caldt ≤ d19960102 then
      w0 * (1 - ((r.caldt - d19950102 : ℤ) : ℚ) / (decayDays : ℚ))
    else w0
  if r.original_maturity = 20 ∧ d19960102 < r.caldt then 0 else w1

/-- Embedding of gurkaynak_sack_wright_filters (gsw2006_yield_curve.py,
lines 276-352): the five eligibility filters applied in sequence, returning
the surviving rows paired with their weights. -/
def gurkaynak_sack_wright_filters (rows : List SecurityRow) : List (SecurityRow × ℚ) :=
  let f1 := rows.filter fun r => decide (92 < r.days_to_maturity)
  let f2 := f1.filter fun r => decide (¬(d19800101 ≤ r.caldt ∧ r.run ≤ 2))
  let f3 := f2.filter fun r => decide (r.itype = 1 ∨ r.itype = 2)
  let f4 := f3.map fun r => (r, gswWeight r)
  let f5 := f4.filter fun p => !p.1.callable
  f5.filter fun p => decide (0 < p.2)

/-- A second off-the-run note quoted on 2000-01-03: run rank 2 (runs are
0-based recency ranks, run 0 = on-the-run), 1000 days to maturity,
itype 2 (note), original maturity 10 years, not callable. -/
def secondOffTheRunRow : SecurityRow :=
  ⟨1000, (toOrdinal ⟨2000, 1, 3⟩ : ℤ), 2, 2, 10, false⟩

/-! ## Embedding of src/gsw2006_yield_curve.py: the NSS model and its fit -/

/-- The six Nelson-Siegel-Svensson parameters. -/
structure NSSParams where
  tau1 : ℝ
  tau2 : ℝ
  beta1 : ℝ
  beta2 : ℝ
  beta3 : ℝ
  beta4 : ℝ

/-- The fixed default parameter seed PARAMS0 = (1, 10, 3, 3, 3, 3). -/
noncomputable def PARAMS0 : NSSParams := ⟨1, 10, 3, 3, 3, 3⟩

/-- Embedding of spot (gsw2006_yield_curve.py, lines 139-156): the NSS
zero-coupon yield at maturity t. -/
noncomputable def spot (p : NSSParams) (t : ℝ) : ℝ :=
  let tau1_exp := (1 - Real.exp (-t / p.tau1)) / (t / p.tau1)
  let tau2_exp := (1 - Real.exp (-t / p.tau2)) / (t / p.tau2)
  p.beta1 + p.beta2 * tau1_exp + p.beta3 * (tau1_exp - Real.exp (-t / p.tau1))
    + p.beta4 * (tau2_exp - Real.exp (-t / p.tau2))

/-- Embedding of discount (gsw2006_yield_curve.py, lines 159-168):
discount factors from NSS spot rates. -/
noncomputable def discount (p : NSSParams) (t : ℝ) : ℝ :=
  Real.exp (-(spot p t) * t)

/-- Embedding of the local mean_squared_error closure inside fit
(gsw2006_yield_curve.py, lines 251-253): duration-weighted mean squared
price error.  cashflows is the per-bond cashflow matrix, times the payment
times, weights the per-bond values 1/sqrt(duration). -/
noncomputable def meanSquaredError (cashflows : List (List ℝ)) (times : List ℝ)
    (observed weights : List ℝ) (p : NSSParams) : ℝ :=
  let predicted := cashflows.map fun cfrow =>
    (List.zipWith (fun c t => c * discount p t) cfrow times).sum
  (List.zipWith (fun ow pr => ((ow.1 - pr) * ow.2) ^ 2)
      (observed.zip weights) predicted).sum / (observed.length : ℝ)

/-- Result reported by the bounded nonlinear optimizer
(scipy.optimize.minimize): a convergence flag and the parameter point. -/
structure OptResult where
  success : Bool
  x : NSSParams

/-- Embedding of fit (gsw2006_yield_curve.py, lines 251-273) from the
optimizer call onward: run the bounded solver on the objective; raise
FitError when the solver reports non-convergence, otherwise return the
fitted parameters together with the objective value at the optimum.
The external solver is abstracted as a function from the objective to an
OptResult. -/
noncomputable def fit (solver : (NSSParams → ℝ) → OptResult)
    (cashflows : List (List ℝ)) (times observed weights : List ℝ) :
    Except CurveError (NSSParams × ℝ) :=
  let f := fun p => meanSquaredError cashflows times observed weights p
  let result := solver f
  if result.success then Except.ok (result.x, f result.x)
  else Except.error CurveError.fitError

end Gsw2006

namespace ErrorMetrics

/-! ## Embedding of src/error_metrics.py -/

/-- The bid/ask midpoint series mid = (bid + ask) * 0.5 computed inside
wmae (error_metrics.py, line 14). -/
def midQuotes (bid ask : List ℚ) : List ℚ :=
  List.zipWith (fun b a => (b + a) * (1 / 2)) bid ask

/-- Embedding of wmae (error_metrics.py, lines 12-17): weighted mean
absolute error with inverse-duration weights. -/
def wmae (model_price bid ask duration : List ℚ) : ℚ :=
  let mid := midQuotes bid ask
  let weights := duration.map fun d => 1 / d
  (List.zipWith (fun w e => w * e) weights
      (List.zipWith (fun m md => |m - md|) model_price mid)).sum / weights.sum

/-- Embedding of hit_rate (error_metrics.py, lines 20-23): fraction of
model prices lying inside the bid/ask band. -/
def hit_rate (model_price bid ask : List ℚ) : ℚ :=
  let hits := List.zipWith (fun m (p : ℚ × ℚ) => decide (p.1 ≤ m) && decide (m ≤ p.2))
    model_price (bid.zip ask)
  ((hits.count true : ℕ) : ℚ) / (hits.length : ℚ)

end ErrorMetrics

namespace CurveConversions

/-! ## Embedding of src/curve_conversions.py

The kernels below operate on the time/discount arrays AFTER the sort
performed by the helper _as_arrays (np.argsort on the time column); the
sortedness of the input is therefore a hypothesis of the theorems about
them.  The validations of _as_arrays (no NaN, nonnegative times, positive
discounts) likewise appear as hypotheses. -/

/-- Embedding of np.interp on a list of (time, value) pairs whose times are
increasing: clamp to the end values outside the tabulated range, linearly
interpolate within it. -/
noncomputable def npInterp (x : ℝ) : List (ℝ × ℝ) → ℝ
  | [] => 0
  | [p] => p.2
  | p :: q :: rest =>
    if x ≤ p.1 then p.2
    else if x ≤ q.1 then p.2 + (x - p.1) * (q.2 - p.2) / (q.1 - p.1)
    else npInterp x (q :: rest)

/-- The first positive-time spot rate of the curve, in array order: the
value r[pos][0] used to fill T = 0 rows (0 when no positive time exists). -/
noncomputable def spotFill : List (ℝ × ℝ) → ℝ
  | [] => 0
  | p :: rest => if 0 < p.1 then -Real.log p.2 / p.1 else spotFill rest

/-- Embedding of spot_rates_from_discount_cc (curve_conversions.py,
lines 38-55), value part: continuously compounded spot rates -ln(D)/T for
T > 0, with T = 0 entries filled by the first positive-T rate, or 0 when
the curve has no positive time. -/
noncomputable def spot_rates_from_discount_cc (T D : List ℝ) : List ℝ :=
  (T.zip D).map fun p =>
    if 0 < p.1 then -Real.log p.2 / p.1 else spotFill (T.zip D)

/-- Embedding of np.gradient on values f at sample points x with the given
edge order: second-order central differences in the interior, and either
second-order one-sided (edgeOrder = 2) or first-order one-sided differences
at the two boundary points. -/
noncomputable def npGradient (f x : List ℝ) (edgeOrder : ℕ) : List ℝ :=
  let n := f.length
  let g := fun i => f.getD i 0
  let t := fun i => x.getD i 0
  (List.range n).map fun i =>
    if i = 0 then
      if edgeOrder = 2 then
        let dx1 := t 1 - t 0
        let dx2 := t 2 - t 1
        (-(2 * dx1 + dx2) / (dx1 * (dx1 + dx2))) * g 0
          + ((dx1 + dx2) / (dx1 * dx2)) * g 1
          + (-dx1 / (dx2 * (dx1 + dx2))) * g 2
      else (g 1 - g 0) / (t 1 - t 0)
    else if i = n - 1 then
      if edgeOrder = 2 then
        let dx1 := t (n - 2) - t (n - 3)
        let dx2 := t (n - 1) - t (n - 2)
        (dx2 / (dx1 * (dx1 + dx2))) * g (n - 3)
          + (-(dx2 + dx1) / (dx1 * dx2)) * g (n - 2)
          + ((2 * dx2 + dx1) / (dx2 * (dx1 + dx2))) * g (n - 1)
      else (g (n - 1) - g (n - 2)) / (t (n - 1) - t (n - 2))
    else
      let dx1 := t i - t (i - 1)
      let dx2 := t (i + 1) - t i
      (-dx2 / (dx1 * (dx1 + dx2))) * g (i - 1)
        + ((dx2 - dx1) / (dx1 * dx2)) * g i
        + (dx1 / (dx2 * (dx1 + dx2))) * g (i + 1)

/-- Embedding of forward_rate_instant_cc (curve_conversions.py,
lines 77-90), value part: minus the numerical gradient of ln D(T), with
edge order 2 when the curve has at least 3 points and 1 otherwise. -/
noncomputable def forward_rate_instant_cc (T D : List ℝ) : List ℝ :=
  let lnD := D.map Real.log
  let edgeOrder := if 3 ≤ T.length then 2 else 1
  (npGradient lnD T edgeOrder).map fun v => -v

/-- Value part of forward_rate_discrete_cc: the forward rate over
[T, T + dt] with D(T + dt) obtained by linear interpolation (np.interp)
on the tabulated curve. -/
noncomputable def forwardDiscreteVals (dt : ℝ) (T D : List ℝ) : List ℝ :=
  (List.range T.length).map fun i =>
    let t2 := T.getD i 0 + dt
    let d2 := npInterp t2 (T.zip D)
    (Real.log (D.getD i 0) - Real.log d2) / dt

/-- Embedding of forward_rate_discrete_cc (curve_conversions.py,
lines 92-105): rejects dt <= 0 with a ConfigError, otherwise computes
(ln D(T) - ln D(T + dt)) / dt. -/
noncomputable def forward_rate_discrete_cc (dt : ℝ) (T D : List ℝ) :
    Except CurveError (List ℝ) :=
  if dt ≤ 0 then Except.error CurveError.configError
  else Except.ok (forwardDiscreteVals dt T D)

/-! ### Frame layer

The four converter functions share the same output assembly
(curve_conversions.py lines 52-55, 71-74, 87-90, 102-105):
copy the input frame, sort it ascending by the time column, and assign the
computed series as one output column.  A data frame is modelled as a column
list over an arbitrary label type plus rational-valued rows; the computed
series is abstracted as a kernel function of the sorted rows, which covers
all four converters at once. -/

structure QFrame (κ : Type) where
  cols : List κ
  rows : List (List ℚ)

/-- The sort key of a row: its entry in the time column. -/
def rowKey (tIdx : ℕ) (r : List ℚ) : ℚ := r.getD tIdx 0

/-- Embedding of curve.sort_values(t_col): sort the rows ascending by the
time column. -/
def sortRowsBy (tIdx : ℕ) (rows : List (List ℚ)) : List (List ℚ) :=
  List.insertionSort (fun a b => rowKey tIdx a ≤ rowKey tIdx b) rows

/-- Embedding of the pandas column assignment out[out_col] = r: replace the
column when the label exists, otherwise append a new column on the right. -/
def setCol {κ : Type} [DecidableEq κ] (fr : QFrame κ) (name : κ) (vals : List ℚ) :
    QFrame κ :=
  if name ∈ fr.cols then
    ⟨fr.cols, List.zipWith (fun r v => r.set (fr.cols.indexOf name) v) fr.rows vals⟩
  else
    ⟨fr.cols ++ [name], List.zipWith (fun r v => r ++ [v]) fr.rows vals⟩

/-- The shared converter skeleton: out = curve.copy();
out = out.sort_values(t_col).reset_index(drop=True); out[out_col] = kernel.
Instantiating the kernel with the four value computations above yields
spot_rates_from_discount_cc, spot_rate_from_discount_simple,
forward_rate_instant_cc and forward_rate_discrete_cc at frame level. -/
def curveConvertFrame {κ : Type} [DecidableEq κ] (fr : QFrame κ) (tIdx : ℕ)
    (outName : κ) (kernel : List (List ℚ) → List ℚ) : QFrame κ :=
  let sorted := sortRowsBy tIdx fr.rows
  setCol ⟨fr.cols, sorted⟩ outName (kernel sorted)

end CurveConversions

namespace Mcc1975

/-! ## Embedding of src/mcc1975_yield_curve.py -/

/-- Python max over a (nonempty) list. -/
def listMax : List ℚ → ℚ
  | [] => 0
  | x :: xs => xs.foldl max x

/-- Embedding of get_nodes (mcc1975_yield_curve.py, lines 12-31): knot
placement.  n_bonds is len(bonds); maturities is the ascending time-to-
maturity array.  Returns the knot vector and the coefficient count. -/
def get_nodes (n_bonds : ℕ) (maturities : List ℚ) : List ℚ × ℕ :=
  let n_knots := Nat.sqrt n_bonds
  let Tmax := listMax maturities
  let ncoef := n_knots + 1
  let interior_knots := (List.range' 2 (n_knots - 2)).map fun (j : ℕ) =>
    let q : ℚ := ((j : ℚ) - 1) * (n_bonds : ℚ) / ((ncoef : ℚ) - 2)
    let h := (⌊q⌋).toNat
    let theta := q - (h : ℚ)
    maturities.getD h 0 + theta * (maturities.getD (h + 1) 0 - maturities.getD h 0)
  ((0 : ℚ) :: (interior_knots ++ [Tmax]), ncoef)

/-- Embedding of the local function f_j inside build_basis_matrix
(mcc1975_yield_curve.py, lines 62-105): the McCulloch cubic basis function
for column j (1-based, j = 1..k-1), evaluated at a scalar point m.  The
numpy masked assignments are applied in source order, a later region
overwriting an earlier one. -/
def fj (d : List ℚ) (k : ℕ) (j : ℕ) (m : ℚ) : ℚ :=
  let d_jm1 : ℚ := if j = 1 then 0 else d.getD (j - 2) 0
  let d_j : ℚ := if j = 1 then d.getD 0 0 else d.getD (j - 1) 0
  let d_jp1 : ℚ :=
    if j = 1 then d.getD 1 0
    else if j < k - 1 then d.getD j 0
    else d.getD (d.length - 1) 0
  let out1 : ℚ :=
    if d_jm1 ≤ m ∧ m < d_j then
      if 6 * (d_j - d_jm1) = 0 then 0 else (m - d_jm1) ^ 3 / (6 * (d_j - d_jm1))
    else 0
  let out2 : ℚ :=
    if d_j ≤ m ∧ m < d_jp1 then
      let c := d_j - d_jm1
      let e := m - d_j
      if 6 * (d_jp1 - d_j) = 0 then c ^ 2 / 6 + c * e / 2 + e ^ 2 / 2
      else c ^ 2 / 6 + c * e / 2 + e ^ 2 / 2 - e ^ 3 / (6 * (d_jp1 - d_j))
    else out1
  if d_jp1 ≤ m then (d_jp1 - d_jm1) * ((2 * d_jp1 - d_j - d_jm1) / 6 + (m - d_jp1) / 2)
  else out2

/-- One row of the basis matrix F: columns f_1 .. f_{k-1} followed by the
identity column f_k(m) = m (formula A.6). -/
def basisRow (d : List ℚ) (k : ℕ) (m : ℚ) : List ℚ :=
  ((List.range (k - 1)).map fun i => fj d k (i + 1) m) ++ [m]

/-- The validation performed by build_basis_matrix: exactly k - 1 knots,
nondecreasing. -/
def validKnots (d : List ℚ) (k : ℕ) : Bool :=
  decide (d.length = k - 1) && decide (List.Chain' (· ≤ ·) d)

/-- Embedding of build_basis_matrix (mcc1975_yield_curve.py, lines 33-113):
validate the knots against the coefficient count, then evaluate the basis
at every grid point. -/
def build_basis_matrix (m_grid : List ℚ) (d : List ℚ) (k : ℕ) :
    Except CurveError (List (List ℚ)) :=
  if d.length ≠ k - 1 then Except.error CurveError.dataError
  else if ¬List.Chain' (· ≤ ·) d then Except.error CurveError.dataError
  else Except.ok (m_grid.map fun m => basisRow d k m)

/-- Dot product of two coefficient lists. -/
def dot (xs ys : List ℚ) : ℚ := (List.zipWith (fun a b => a * b) xs ys).sum

/-- Embedding of discount (mcc1975_yield_curve.py, lines 115-124): the
additive spline discount function D(t) = 1 + F(t) @ beta. -/
def discount (beta : List ℚ) (t : List ℚ) (d : List ℚ) (ncoef : ℕ) :
    Except CurveError (List ℚ) :=
  (build_basis_matrix t d ncoef).map fun F => F.map fun row => 1 + dot row beta

/-- Embedding of np.linspace(a, b, num). -/
def linspace (a b : ℚ) (num : ℕ) : List ℚ :=
  (List.range num).map fun (i : ℕ) => a + (b - a) * (i : ℚ) / ((num : ℚ) - 1)

/-- Embedding of discount_curve (mcc1975_yield_curve.py, lines 159-175):
evaluate the fitted discount function on the knot vector (node curve) and
on a 200-point grid from 0 to ceil(max ttm) (dense curve).  Returns
(curve_df, nodes_df) as lists of (T, discount) pairs. -/
def discount_curve (maxTtm : ℚ) (beta_hat d : List ℚ) (ncoef : ℕ) :
    Except CurveError (List (ℚ × ℚ) × List (ℚ × ℚ)) := do
  let T_grid := linspace 0 ((⌈maxTtm⌉ : ℤ) : ℚ) 200
  let F_nodes ← build_basis_matrix d d ncoef
  let D_nodes := F_nodes.map fun row => 1 + dot row beta_hat
  let F ← build_basis_matrix T_grid d ncoef
  let D := F.map fun row => 1 + dot row beta_hat
  pure (T_grid.zip D, d.zip D_nodes)

/-- Column sum of the cashflow-weighted basis rows of one bond: the design
row np.sum(cf_i[:, None] * F_i, axis=0). -/
def designRow (cf : List ℚ) (F : List (List ℚ)) (ncoef : ℕ) : List ℚ :=
  (List.zipWith (fun c row => row.map fun v => c * v) cf F).foldl
    (fun acc r => List.zipWith (fun a b => a + b) acc r) (List.replicate ncoef 0)

/-- Embedding of fit (mcc1975_yield_curve.py, lines 145-157): build the
design matrix and right-hand side bond by bond — each bond requiring a
validated basis matrix — then hand them to the least-squares solver, which
is abstracted as a parameter (np.linalg.lstsq). -/
def fit (cashflows times : List (List ℚ)) (prices_clean ai : List ℚ)
    (d : List ℚ) (ncoef : ℕ) (lstsq : List (List ℚ) → List ℚ → List ℚ) :
    Except CurveError (List ℚ) := do
  let rows ← ((cashflows.zip times).zip (prices_clean.zip ai)).mapM fun q => do
    let F_i ← build_basis_matrix q.1.2 d ncoef
    let C_i := q.1.1.sum
    pure (designRow q.1.1 F_i ncoef, q.2.1 - (C_i - q.2.2))
  pure (lstsq (rows.map Prod.fst) (rows.map Prod.snd))

/-- The per-date portion of run_mcculloch (mcc1975_yield_curve.py,
lines 178-223) up to the coefficient fit: place the knots from the sorted
maturities, then fit, which validates the knot vector before any linear
algebra runs. -/
def run_mcculloch_date (maturities : List ℚ) (cashflows times : List (List ℚ))
    (prices ai : List ℚ) (lstsq : List (List ℚ) → List ℚ → List ℚ) :
    Except CurveError (List ℚ) :=
  let dn := get_nodes maturities.length maturities
  fit cashflows times prices ai dn.1 dn.2 lstsq

/-- Ascending maturities 1, 2, ..., 16 for a 16-bond sample. -/
def ms16 : List ℚ := [1, 2, 3, 4, 5, 6, 7, 8, 9, 10, 11, 12, 13, 14, 15, 16]

/-- The linear interpolation of the sorted maturity array at a fractional
position q, as computed for each interior knot in get_nodes:
maturities[h] + theta * (maturities[h+1] - maturities[h]) with
h = floor(q) and theta = q - h. -/
def interpMaturity (ms : List ℚ) (q : ℚ) : ℚ :=
  ms.getD (⌊q⌋).toNat 0 +
    (q - ((⌊q⌋).toNat : ℚ)) * (ms.getD ((⌊q⌋).toNat + 1) 0 - ms.getD (⌊q⌋).toNat 0)

end Mcc1975

namespace CurveFittingUtils

/-! ## Embedding of src/curve_fitting_utils.py: get_cashflows_from_bonds -/

/-- The columns of one bond row read by the cashflow builder. -/
structure BondRow where
  date : CivDate
  maturity_date : CivDate
  first_coupon_date : Option CivDate
  issue_date : Option CivDate
  coupon : ℚ
deriving DecidableEq, Repr

/-- Embedding of the backward-walking while loop that infers a missing
first-coupon date (curve_fitting_utils.py, lines 90-99): starting from the
maturity date, step back 12/freq months (keeping month-end alignment when
the maturity is a month end) until a boundary straddles the settle date.
The recursion is bounded by an explicit fuel argument. -/
def inferFirstCoupon (settle : CivDate) (monthEndFlag : Bool) (months : ℕ) :
    CivDate → ℕ → Option CivDate
  | _, 0 => none
  | dcur, fuel + 1 =>
    if toOrdinal settle < toOrdinal dcur then
      let prev := if monthEndFlag then monthEnd0 (addMonths dcur (-(months : ℤ)))
        else addMonths dcur (-(months : ℤ))
      if toOrdinal prev ≤ toOrdinal settle ∧ toOrdinal settle < toOrdinal dcur then
        some dcur
      else inferFirstCoupon settle monthEndFlag months prev fuel
    else none

/-- Embedding of the forward schedule loop (curve_fitting_utils.py,
lines 107-112): walk from the first-coupon date in 12/freq-month steps
while the month period does not exceed the maturity month, keeping dates
after settle.  Bounded by fuel. -/
def paymentDates (settle maturity : CivDate) (monthEndFlag : Bool) (months : ℕ) :
    CivDate → ℕ → List CivDate
  | _, 0 => []
  | dcur, fuel + 1 =>
    if periodLE dcur maturity then
      let next := if monthEndFlag then monthEnd0 (addMonths dcur (months : ℤ))
        else addMonths dcur (months : ℤ)
      (if toOrdinal settle < toOrdinal dcur then [dcur] else []) ++
        paymentDates settle maturity monthEndFlag months next fuel
    else []

/-- The stub-period data of the first coupon (curve_fitting_utils.py,
lines 126-138): whether the stub adjustment triggers, and the scale factor
stub_days / regular_days. -/
def stubInfo (firstPay : CivDate) (monthEndFlag : Bool) (months : ℕ)
    (issue : Option CivDate) (stubTol : ℤ) : Bool × ℚ :=
  let prevCoupon := if monthEndFlag then monthEnd0 (addMonths firstPay (-(months : ℤ)))
    else addMonths firstPay (-(months : ℤ))
  let regularDays : ℤ := (toOrdinal firstPay : ℤ) - (toOrdinal prevCoupon : ℤ)
  let accrualStart := match issue with
    | some iss => if toOrdinal prevCoupon ≤ toOrdinal iss then iss else prevCoupon
    | none => prevCoupon
  let stubDays : ℤ := (toOrdinal firstPay : ℤ) - (toOrdinal accrualStart : ℤ)
  (decide (stubTol < |stubDays - regularDays|) && decide (regularDays ≠ 0),
    (stubDays : ℚ) / (regularDays : ℚ))

/-- The cashflow amount array (curve_fitting_utils.py, lines 123-124 and
139): nds coupon payments of amount c, with the face value added to the
final one, and the first overwritten by c * ratio when the stub adjustment
applies. -/
def scheduleAmounts (nds : ℕ) (c face ratio : ℚ) (useStub : Bool) : List ℚ :=
  (List.range nds).map fun i =>
    if useStub ∧ i = 0 then c * ratio
    else if i = nds - 1 then c + face
    else c

/-- Day-count year fraction (dt - settle).days / 365. -/
def yearFrac (settle dt : CivDate) : ℚ :=
  (((toOrdinal dt : ℤ) - (toOrdinal settle : ℤ) : ℤ) : ℚ) / 365

/-- The resolved first-coupon date: the supplied one, else the inferred one
(curve_fitting_utils.py, lines 84 and 89-101). -/
def resolvedFirstCoupon (row : BondRow) (months : ℕ) (fuel : ℕ) : Option CivDate :=
  match row.first_coupon_date with
  | some fc => some fc
  | none =>
    inferFirstCoupon row.date
      (decide (row.maturity_date = monthEnd0 row.maturity_date)) months
      row.maturity_date fuel

/-- Embedding of the per-bond body of get_cashflows_from_bonds
(curve_fitting_utils.py, lines 81-147): build the payment schedule and
amounts of one bond.  Returns (cashflow amounts, payment times in years). -/
def bondCashflows (row : BondRow) (face : ℚ) (freq : ℕ) (stubTol : ℤ)
    (fuel : ℕ) : Except CurveError (List ℚ × List ℚ) :=
  let months := 12 / freq
  let c := face * (row.coupon / 100) / (freq : ℚ)
  if 0 < c then
    match resolvedFirstCoupon row months fuel with
    | none => Except.error CurveError.dataError
    | some fc =>
      let mFlag := decide (fc = monthEnd0 fc)
      match paymentDates row.date row.maturity_date mFlag months fc fuel with
      | [] => Except.ok ([c + face], [yearFrac row.date row.maturity_date])
      | firstPay :: rest =>
        let ds := firstPay :: rest
        let times := ds.map fun dt => yearFrac row.date dt
        let sI := stubInfo firstPay mFlag months row.issue_date stubTol
        Except.ok (scheduleAmounts ds.length c face sI.2 sI.1, times)
  else
    Except.ok ([face], [yearFrac row.date row.maturity_date])

/-- Embedding of get_cashflows_from_bonds over a whole bond table:
the per-bond schedules collected into parallel lists. -/
def get_cashflows_from_bonds (bonds : List BondRow) (face : ℚ) (freq : ℕ)
    (stubTol : ℤ) (fuel : ℕ) :
    Except CurveError (List (List ℚ) × List (List ℚ)) :=
  (bonds.mapM fun row => bondCashflows row face freq stubTol fuel).map fun l =>
    (l.map Prod.fst, l.map Prod.snd)

/-- A bond with an irregular (short) first coupon period: settle
2000-02-01, maturity 2001-01-15, first coupon 2000-07-15, issued
2000-05-01, 5 percent coupon. -/
def stubBondRow : BondRow :=
  ⟨⟨2000, 2, 1⟩, ⟨2001, 1, 15⟩, some ⟨2000, 7, 15⟩, some ⟨2000, 5, 1⟩, 5⟩

/-- A regular two-year 5 percent semiannual bond: settle 2000-01-15 at a
coupon boundary, maturity 2002-01-15, first coupon 2000-07-15. -/
def regularBondRow : BondRow :=
  ⟨⟨2000, 1, 15⟩, ⟨2002, 1, 15⟩, some ⟨2000, 7, 15⟩, none, 5⟩

end CurveFittingUtils

/-! ## Theorems -/

/-- C1 (code_bug evidence): the post-1980 on-the-run filter drops the
run-rank-2 row (second off-the-run), even though the same row with run
rank 3 passes every filter with weight 1.  The code excludes runs 0, 1 AND
2, while its own docstring and the GSW paper passage it quotes exclude only
the two most recently issued securities (runs 0 and 1). -/
theorem run_two_post1980_excluded :
    Gsw2006.gurkaynak_sack_wright_filters [Gsw2006.secondOffTheRunRow] = [] ∧
    Gsw2006.gurkaynak_sack_wright_filters [{ Gsw2006.secondOffTheRunRow with run := 3 }] =
      [({ Gsw2006.secondOffTheRunRow with run := 3 }, 1)] := by
  constructor <;>
    norm_num [Gsw2006.gurkaynak_sack_wright_filters, Gsw2006.gswWeight,
      Gsw2006.secondOffTheRunRow, Gsw2006.d19800101, Gsw2006.d19960102,
      Gsw2006.d19950102, toOrdinal, daysBeforeMonth, isLeapYear, List.filter]

/-- Helper: a product-sum against an all-zero list vanishes. -/
theorem sum_zipWith_mul_zero (w : List ℚ) (l : List ℚ) :
    (List.zipWith (fun a b => a * b) w (l.map fun _ => (0 : ℚ))).sum = 0 := by
  induction w generalizing l with
  | nil => simp
  | cons a w ih =>
    cases l with
    | nil => simp
    | cons b l => simpa using ih l

/-- Helper: when every bid is at or below its ask, every midpoint quote
lies inside the bid/ask band, so the hit indicator array is all True. -/
theorem hits_all_true (bid ask : List ℚ) (h : List.Forall₂ (· ≤ ·) bid ask) :
    List.zipWith (fun m (p : ℚ × ℚ) => decide (p.1 ≤ m) && decide (m ≤ p.2))
      (ErrorMetrics.midQuotes bid ask) (bid.zip ask) =
      List.replicate bid.length true := by
  induction h with
  | nil => simp [ErrorMetrics.midQuotes]
  | @cons b a bid ask hba htail ih =>
    simp only [ErrorMetrics.midQuotes, List.zipWith_cons_cons, List.zip_cons_cons,
      List.length_cons, List.replicate_succ] at ih ⊢
    refine congrArg₂ _ ?_ ih
    simp only [Bool.and_eq_true, decide_eq_true_eq]
    constructor <;> linarith

/-- C6 (amended): for nonempty quote arrays with strictly positive
durations and every bid at or below its ask, pricing each quote at the
bid/ask midpoint gives a weighted mean absolute error of 0 and a hit rate
of 1. -/
theorem wmae_zero_hit_rate_one_at_midpoint (bid ask duration : List ℚ)
    (hne : bid ≠ []) (hdur : ∀ x ∈ duration, 0 < x)
    (hba : List.Forall₂ (· ≤ ·) bid ask) :
    ErrorMetrics.wmae (ErrorMetrics.midQuotes bid ask) bid ask duration = 0 ∧
    ErrorMetrics.hit_rate (ErrorMetrics.midQuotes bid ask) bid ask = 1 := by
  constructor
  · have hz : List.zipWith (fun m md => |m - md|) (ErrorMetrics.midQuotes bid ask)
        (ErrorMetrics.midQuotes bid ask) =
        (ErrorMetrics.midQuotes bid ask).map fun _ => (0 : ℚ) := by
      rw [List.zipWith_same]
      simp
    simp only [ErrorMetrics.wmae]
    rw [hz, sum_zipWith_mul_zero, zero_div]
  · have hn : (bid.length : ℚ) ≠ 0 := by simpa using hne
    simp only [ErrorMetrics.hit_rate]
    rw [hits_all_true bid ask hba]
    simp [List.count_replicate, hn]

/-- C6 (counterexample): on a crossed quote (bid 2, ask 0, duration 1) the
midpoint price misses the band, so the claim that midpoint pricing always
yields wmae 0 AND hit rate 1 fails: the hit rate is 0. -/
theorem hit_rate_crossed_quote_counterexample :
    ¬(ErrorMetrics.wmae (ErrorMetrics.midQuotes [2] [0]) [2] [0] [1] = 0 ∧
      ErrorMetrics.hit_rate (ErrorMetrics.midQuotes [2] [0]) [2] [0] = 1) := by
  intro h
  have h2 := h.2
  norm_num [ErrorMetrics.hit_rate, ErrorMetrics.midQuotes] at h2

/-- C6 witness: the amended theorem evaluated on the concrete quotes
bid = [100, 99], ask = [102, 101], duration = [1, 2]. -/
theorem wmae_hit_rate_midpoint_witness :
    ErrorMetrics.wmae (ErrorMetrics.midQuotes [100, 99] [102, 101])
      [100, 99] [102, 101] [1, 2] = 0 ∧
    ErrorMetrics.hit_rate (ErrorMetrics.midQuotes [100, 99] [102, 101])
      [100, 99] [102, 101] = 1 := by
  refine wmae_zero_hit_rate_one_at_midpoint [100, 99] [102, 101] [1, 2] (by simp) ?_ ?_
  · intro x hx
    simp only [List.mem_cons, List.not_mem_nil, or_false] at hx
    rcases hx with h | h <;> norm_num [h]
  · norm_num [List.forall₂_cons]

/-- C7: the NSS fit reports FitError exactly when the solver reports
non-convergence, and on success it returns the solver's parameter point
together with the objective value there; no partial result is produced on
failure. -/
theorem fit_error_iff_not_success (solver : (Gsw2006.NSSParams → ℝ) → Gsw2006.OptResult)
    (cashflows : List (List ℝ)) (times observed weights : List ℝ) :
    (Gsw2006.fit solver cashflows times observed weights =
        Except.error CurveError.fitError ↔
      (solver fun p => Gsw2006.meanSquaredError cashflows times observed weights p).success
        = false) ∧
    ((solver fun p => Gsw2006.meanSquaredError cashflows times observed weights p).success
        = true →
      Gsw2006.fit solver cashflows times observed weights =
        Except.ok
          ((solver fun p => Gsw2006.meanSquaredError cashflows times observed weights p).x,
            Gsw2006.meanSquaredError cashflows times observed weights
              (solver fun p =>
                Gsw2006.meanSquaredError cashflows times observed weights p).x)) := by
  unfold Gsw2006.fit
  rcases hs : (solver fun p =>
      Gsw2006.meanSquaredError cashflows times observed weights p).success with _ | _ <;>
    simp [hs]

/-- C7 witness: a solver reporting success returns the seed parameters and
objective value; a solver reporting failure yields FitError. -/
theorem fit_witness :
    Gsw2006.fit (fun _ => ⟨true, Gsw2006.PARAMS0⟩) [] [] [] [] =
      Except.ok (Gsw2006.PARAMS0, Gsw2006.meanSquaredError [] [] [] [] Gsw2006.PARAMS0) ∧
    Gsw2006.fit (fun _ => ⟨false, Gsw2006.PARAMS0⟩) [] [] [] [] =
      Except.error CurveError.fitError := by
  constructor
  · exact (fit_error_iff_not_success (fun _ => ⟨true, Gsw2006.PARAMS0⟩) [] [] [] []).2 rfl
  · exact ((fit_error_iff_not_success (fun _ => ⟨false, Gsw2006.PARAMS0⟩) [] [] [] []).1).mpr rfl

/-- Helper: characterize Nat.sqrt by squeezing. -/
theorem natSqrt_eq {m k : ℕ} (h1 : k * k ≤ m) (h2 : m < (k + 1) * (k + 1)) :
    Nat.sqrt m = k :=
  le_antisymm (Nat.lt_succ_iff.1 (Nat.sqrt_lt.2 h2)) (Nat.le_sqrt.2 h1)

/-- Helper: getD over a list of nonnegative rationals is nonnegative. -/
theorem getD_nonneg (d : List ℚ) (hpos : ∀ x ∈ d, 0 ≤ x) (i : ℕ) :
    0 ≤ d.getD i 0 := by
  rcases Nat.lt_or_ge i d.length with h | h
  · rw [List.getD_eq_getElem?_getD, List.getElem?_eq_getElem h, Option.getD_some]
    exact hpos _ (List.getElem_mem h)
  · rw [List.getD_eq_getElem?_getD, List.getElem?_eq_none h, Option.getD_none]

/-- Helper: getD of a nondecreasing list is monotone on in-range indices. -/
theorem chain_le_getD (d : List ℚ) (hchain : List.Chain' (· ≤ ·) d) :
    ∀ i j, i ≤ j → j < d.length → d.getD i 0 ≤ d.getD j 0 := by
  have hp := List.chain'_iff_pairwise.1 hchain
  intro i j hij hj
  rcases eq_or_lt_of_le hij with rfl | hlt
  · exact le_refl _
  · have hi : i < d.length := lt_trans hlt hj
    rw [List.getD_eq_getElem?_getD, List.getD_eq_getElem?_getD,
      List.getElem?_eq_getElem hi, List.getElem?_eq_getElem hj,
      Option.getD_some, Option.getD_some]
    exact List.pairwise_iff_getElem.1 hp i j hi hj hlt

/-- Helper: foldl max dominates the start value and every element. -/
theorem le_foldl_max (l : List ℚ) :
    ∀ a : ℚ, a ≤ l.foldl max a ∧ ∀ x ∈ l, x ≤ l.foldl max a := by
  induction l with
  | nil => intro a; exact ⟨le_refl a, by simp⟩
  | cons c t ih =>
    intro a
    constructor
    · exact le_trans (le_max_left a c) (ih (max a c)).1
    · intro x hx
      rcases List.mem_cons.1 hx with rfl | hx'
      · exact le_trans (le_max_right a x) (ih (max a x)).1
      · exact (ih (max a c)).2 x hx'

/-- Helper: every member of a list is at most its Python max. -/
theorem le_listMax (l : List ℚ) (x : ℚ) (hx : x ∈ l) : x ≤ Mcc1975.listMax l := by
  cases l with
  | nil => simp at hx
  | cons a t =>
    rcases List.mem_cons.1 hx with rfl | hx'
    · exact (le_foldl_max t x).1
    · exact (le_foldl_max t a).2 x hx'

/-- Helper: a dot product with an all-zero left factor vanishes. -/
theorem dot_zero_left (xs ys : List ℚ) (h : ∀ v ∈ xs, v = 0) :
    Mcc1975.dot xs ys = 0 := by
  induction xs generalizing ys with
  | nil => simp [Mcc1975.dot]
  | cons a xs ih =>
    cases ys with
    | nil => simp [Mcc1975.dot]
    | cons b ys =>
      have ha := h a (by simp)
      have ht := ih ys fun v hv => h v (by simp [hv])
      simp only [Mcc1975.dot, List.zipWith_cons_cons, List.sum_cons] at ht ⊢
      rw [ha, ht]
      ring

/-- Helper: the piecewise cubic basis value at m = 0 vanishes whenever the
three bracketing knots satisfy 0 <= A <= B <= C. -/
theorem fjPieces_zero (A B C : ℚ) (hA : 0 ≤ A) (hAB : A ≤ B) (hBC : B ≤ C) :
    (if C ≤ (0 : ℚ) then (C - A) * ((2 * C - B - A) / 6 + ((0 : ℚ) - C) / 2)
     else if B ≤ (0 : ℚ) ∧ (0 : ℚ) < C then
       if 6 * (C - B) = 0 then
         (B - A) ^ 2 / 6 + (B - A) * ((0 : ℚ) - B) / 2 + ((0 : ℚ) - B) ^ 2 / 2
       else
         (B - A) ^ 2 / 6 + (B - A) * ((0 : ℚ) - B) / 2 + ((0 : ℚ) - B) ^ 2 / 2
           - ((0 : ℚ) - B) ^ 3 / (6 * (C - B))
     else if A ≤ (0 : ℚ) ∧ (0 : ℚ) < B then
       if 6 * (B - A) = 0 then 0 else ((0 : ℚ) - A) ^ 3 / (6 * (B - A))
     else 0) = 0 := by
  split_ifs with h1 h2 h3 h4 h5 <;>
    first
    | rfl
    | · have hC0 : C = 0 := le_antisymm h1 (le_trans hA (le_trans hAB hBC))
        have hB0 : B = 0 := le_antisymm (hC0 ▸ hBC) (le_trans hA hAB)
        have hA0 : A = 0 := le_antisymm (hB0 ▸ hAB) hA
        rw [hA0, hB0, hC0]; norm_num
    | · have hB0 : B = 0 := le_antisymm h2.1 (le_trans hA hAB)
        have hA0 : A = 0 := le_antisymm (hB0 ▸ hAB) hA
        rw [hA0, hB0]; norm_num
    | · have hA0 : A = 0 := le_antisymm h4.1 hA
        rw [hA0]; norm_num

/-- Helper: each McCulloch basis function vanishes at m = 0 for a
nondecreasing nonnegative knot vector of the validated length. -/
theorem fj_at_zero (d : List ℚ) (k j : ℕ) (hk : 3 ≤ k) (hlen : d.length = k - 1)
    (hpos : ∀ x ∈ d, 0 ≤ x) (hchain : List.Chain' (· ≤ ·) d)
    (hj1 : 1 ≤ j) (hjk : j ≤ k - 1) :
    Mcc1975.fj d k j 0 = 0 := by
  have hmono := chain_le_getD d hchain
  have hnn := getD_nonneg d hpos
  have hA0 : (0 : ℚ) ≤ (if j = 1 then (0 : ℚ) else d.getD (j - 2) 0) := by
    by_cases hj : j = 1
    · simp [hj]
    · simp only [hj, if_false]
      exact hnn _
  have hAB : (if j = 1 then (0 : ℚ) else d.getD (j - 2) 0) ≤
      (if j = 1 then d.getD 0 0 else d.getD (j - 1) 0) := by
    by_cases hj : j = 1
    · simp only [hj, if_true]
      exact hnn 0
    · simp only [hj, if_false]
      exact hmono (j - 2) (j - 1) (by omega) (by omega)
  have hBC : (if j = 1 then d.getD 0 0 else d.getD (j - 1) 0) ≤
      (if j = 1 then d.getD 1 0
       else if j < k - 1 then d.getD j 0 else d.getD (d.length - 1) 0) := by
    by_cases hj : j = 1
    · simp only [hj, if_true]
      exact hmono 0 1 (by omega) (by omega)
    · by_cases hjk2 : j < k - 1
      · simp only [hj, if_false, hjk2, if_true]
        exact hmono (j - 1) j (by omega) (by omega)
      · simp only [hj, if_false, hjk2]
        have hje : j = k - 1 := by omega
        have : j - 1 = d.length - 1 := by omega
        rw [this]
  exact fjPieces_zero _ _ _ hA0 hAB hBC

/-- Helper: every entry of the basis row at m = 0 is 0. -/
theorem basisRow_zero (d : List ℚ) (k : ℕ) (hk : 3 ≤ k) (hlen : d.length = k - 1)
    (hpos : ∀ x ∈ d, 0 ≤ x) (hchain : List.Chain' (· ≤ ·) d) :
    ∀ v ∈ Mcc1975.basisRow d k 0, v = 0 := by
  intro v hv
  simp only [Mcc1975.basisRow, List.mem_append, List.mem_map, List.mem_range,
    List.mem_singleton] at hv
  rcases hv with ⟨i, hi, rfl⟩ | rfl
  · exact fj_at_zero d k (i + 1) hk hlen hpos hchain (by omega) (by omega)
  · rfl

/-- C10: the knot placement always returns a bracketing vector of length
max(ncoef - 1, 2); for a date with fewer than 4 bonds (so ncoef = 2) the
vector has length 2, fails the knot/coefficient validation, and the spline
fit for that date aborts with the DataError raised by build_basis_matrix
before any coefficients are solved. -/
theorem spline_small_sample_fails (maturities : List ℚ)
    (cashflows times : List (List ℚ)) (prices ai : List ℚ)
    (lstsq : List (List ℚ) → List ℚ → List ℚ)
    (h1 : 1 ≤ maturities.length) (h4 : maturities.length < 4)
    (hcf : cashflows ≠ []) (ht : times ≠ []) (hp : prices ≠ []) (ha : ai ≠ []) :
    (∀ (n : ℕ) (ms : List ℚ),
      (Mcc1975.get_nodes n ms).1.length = max ((Mcc1975.get_nodes n ms).2 - 1) 2) ∧
    (Mcc1975.get_nodes maturities.length maturities).2 = 2 ∧
    (Mcc1975.get_nodes maturities.length maturities).1.length = 2 ∧
    Mcc1975.validKnots (Mcc1975.get_nodes maturities.length maturities).1
      (Mcc1975.get_nodes maturities.length maturities).2 = false ∧
    Mcc1975.run_mcculloch_date maturities cashflows times prices ai lstsq =
      Except.error CurveError.dataError := by
  have hsq : Nat.sqrt maturities.length = 1 := natSqrt_eq (by omega) (by omega)
  have hlenmax : ∀ (n : ℕ) (ms : List ℚ),
      (Mcc1975.get_nodes n ms).1.length = max ((Mcc1975.get_nodes n ms).2 - 1) 2 := by
    intro n ms
    have h1 : (Mcc1975.get_nodes n ms).1.length = (Nat.sqrt n - 2) + 2 := by
      simp [Mcc1975.get_nodes]
    have h2 : (Mcc1975.get_nodes n ms).2 = Nat.sqrt n + 1 := rfl
    rw [h1, h2]
    omega
  have hco : (Mcc1975.get_nodes maturities.length maturities).2 = 2 := by
    simp [Mcc1975.get_nodes, hsq]
  have hdl : (Mcc1975.get_nodes maturities.length maturities).1.length = 2 := by
    rw [hlenmax, hco]
    omega
  refine ⟨hlenmax, hco, hdl, ?_, ?_⟩
  · simp [Mcc1975.validKnots, hdl, hco]
  · rcases cashflows with _ | ⟨cf0, cfs⟩
    · exact absurd rfl hcf
    rcases times with _ | ⟨t0, ts⟩
    · exact absurd rfl ht
    rcases prices with _ | ⟨p0, ps⟩
    · exact absurd rfl hp
    rcases ai with _ | ⟨a0, as0⟩
    · exact absurd rfl ha
    have hbad : Mcc1975.build_basis_matrix t0
        (Mcc1975.get_nodes maturities.length maturities).1
        (Mcc1975.get_nodes maturities.length maturities).2 =
        Except.error CurveError.dataError := by
      rw [Mcc1975.build_basis_matrix, if_pos]
      rw [hdl, hco]
      omega
    simp only [Mcc1975.run_mcculloch_date, Mcc1975.fit, List.zip_cons_cons,
      List.mapM_cons, hbad]
    rfl

/-- C10 witness: the theorem evaluated on a concrete 3-bond date: the fit
aborts with DataError and ncoef = 2. -/
theorem spline_small_sample_fails_witness :
    Mcc1975.run_mcculloch_date [1, 2, 3] [[1]] [[1]] [1] [0] (fun _ _ => []) =
      Except.error CurveError.dataError ∧
    (Mcc1975.get_nodes ([1, 2, 3] : List ℚ).length [1, 2, 3]).2 = 2 := by
  have h := spline_small_sample_fails [1, 2, 3] [[1]] [[1]] [1] [0] (fun _ _ => [])
    (by norm_num) (by norm_num) (by simp) (by simp) (by simp) (by simp)
  exact ⟨h.2.2.2.2, h.2.1⟩

/-- C2 counterexample: on a 16-bond sample with ascending maturities
1, ..., 16, the coefficient count is ncoef = 5, but the knot vector is
[0, 19/3, 35/3, 16]: it contains only 2 interior knots, not ncoef - 2 = 3.
(The code's loop range(2, n_knots) produces ncoef - 3 interior knots.) -/
theorem get_nodes_interior_count_counterexample :
    List.Chain' (· ≤ ·) Mcc1975.ms16 ∧
    Mcc1975.ms16.length = 16 ∧
    (Mcc1975.get_nodes 16 Mcc1975.ms16).2 = 5 ∧
    (Mcc1975.get_nodes 16 Mcc1975.ms16).1 = [0, 19 / 3, 35 / 3, 16] ∧
    (Mcc1975.get_nodes 16 Mcc1975.ms16).1.length - 2 ≠
      (Mcc1975.get_nodes 16 Mcc1975.ms16).2 - 2 := by
  have hsq : Nat.sqrt 16 = 4 := natSqrt_eq (by norm_num) (by norm_num)
  have hr : List.range' 2 2 = [2, 3] := rfl
  have ht5 : Int.toNat 5 = 5 := rfl
  have ht10 : Int.toNat 10 = 10 := rfl
  have hg5 : (Mcc1975.ms16[(5 : ℕ)]?).getD 0 = 6 := rfl
  have hg6 : (Mcc1975.ms16[(6 : ℕ)]?).getD 0 = 7 := rfl
  have hg10 : (Mcc1975.ms16[(10 : ℕ)]?).getD 0 = 11 := rfl
  have hg11 : (Mcc1975.ms16[(11 : ℕ)]?).getD 0 = 12 := rfl
  have hmax : Mcc1975.listMax Mcc1975.ms16 = 16 := by
    simp only [Mcc1975.ms16, Mcc1975.listMax, List.foldl]
    norm_num
  have hknots : (Mcc1975.get_nodes 16 Mcc1975.ms16).1 = [0, 19 / 3, 35 / 3, 16] := by
    simp only [Mcc1975.get_nodes, hsq, hr, List.map_cons, List.map_nil, hmax]
    norm_num [ht5, ht10, hg5, hg6, hg10, hg11]
  refine ⟨?_, by simp [Mcc1975.ms16], by simp [Mcc1975.get_nodes, hsq], hknots, ?_⟩
  · simp only [Mcc1975.ms16, List.chain'_cons, List.chain'_singleton]
    norm_num
  · rw [hknots]
    simp [Mcc1975.get_nodes, hsq]

/-- C3: for a nonnegative nondecreasing knot vector of the validated
length, the spline discount at T = 0 equals 1 for every coefficient
vector; consequently the dense grid returned by discount_curve starts at
(0, 1), and so does the node curve when the knots start at 0; and the NSS
discount at t = 0 equals 1 for every parameter vector. -/
theorem discount_at_zero_is_one (d : List ℚ) (k : ℕ) (beta : List ℚ)
    (hk : 3 ≤ k) (hlen : d.length = k - 1) (hpos : ∀ x ∈ d, 0 ≤ x)
    (hchain : List.Chain' (· ≤ ·) d) (maxTtm : ℚ) :
    (1 + Mcc1975.dot (Mcc1975.basisRow d k 0) beta = 1) ∧
    (∀ curve nodes, Mcc1975.discount_curve maxTtm beta d k = Except.ok (curve, nodes) →
      curve.headD (1, 1) = (0, 1) ∧
      (d.headD 1 = 0 → nodes.headD (1, 1) = (0, 1))) ∧
    (∀ p : Gsw2006.NSSParams, Gsw2006.discount p 0 = 1) := by
  have hrow : 1 + Mcc1975.dot (Mcc1975.basisRow d k 0) beta = 1 := by
    rw [dot_zero_left _ _ (basisRow_zero d k hk hlen hpos hchain)]
    ring
  refine ⟨hrow, ?_, ?_⟩
  · intro curve nodes hok
    have hbm : ∀ grid : List ℚ, Mcc1975.build_basis_matrix grid d k =
        Except.ok (grid.map fun m => Mcc1975.basisRow d k m) := by
      intro grid
      rw [Mcc1975.build_basis_matrix, if_neg (by omega), if_neg (by simpa using hchain)]
    have hval : Mcc1975.discount_curve maxTtm beta d k =
        Except.ok
          ((Mcc1975.linspace 0 ((⌈maxTtm⌉ : ℤ) : ℚ) 200).zip
            (((Mcc1975.linspace 0 ((⌈maxTtm⌉ : ℤ) : ℚ) 200).map fun m =>
                Mcc1975.basisRow d k m).map fun row => 1 + Mcc1975.dot row beta),
          d.zip ((d.map fun m => Mcc1975.basisRow d k m).map fun row =>
            1 + Mcc1975.dot row beta)) := by
      unfold Mcc1975.discount_curve
      simp only [hbm]
      rfl
    rw [hval] at hok
    simp only [Except.ok.injEq, Prod.mk.injEq] at hok
    obtain ⟨hcurve, hnodes⟩ := hok
    constructor
    · rw [← hcurve]
      have hT200 : List.range 200 = 0 :: List.range' 1 199 := by
        rw [List.range_eq_range']
        rfl
      unfold Mcc1975.linspace
      rw [hT200]
      simp only [List.map_cons, List.zip_cons_cons, List.headD_cons]
      norm_num [hrow]
    · intro hd0
      rw [← hnodes]
      cases d with
      | nil => exact absurd hlen (by simp; omega)
      | cons d0 drest =>
        simp only [List.headD_cons] at hd0
        subst hd0
        simp only [List.map_cons, List.zip_cons_cons, List.headD_cons]
        rw [hrow]
  · intro p
    simp [Gsw2006.discount]

/-- C3 witness: the theorem evaluated at the concrete knots [0, 1, 2] with
k = 4 and coefficients [5, 7, 11, 13], plus the NSS seed parameters. -/
theorem discount_at_zero_witness :
    (1 + Mcc1975.dot (Mcc1975.basisRow [0, 1, 2] 4 0) [5, 7, 11, 13] = 1) ∧
    Gsw2006.discount Gsw2006.PARAMS0 0 = 1 := by
  have h := discount_at_zero_is_one [0, 1, 2] 4 [5, 7, 11, 13] (by norm_num)
    (by simp) ?_ ?_ 2
  · exact ⟨h.1, h.2.2 Gsw2006.PARAMS0⟩
  · intro x hx
    simp only [List.mem_cons, List.not_mem_nil, or_false] at hx
    rcases hx with rfl | rfl | rfl <;> norm_num
  · simp only [List.chain'_cons, List.chain'_singleton]
    norm_num

/-- Helper: a list of consecutive naturals is a chain under any relation
holding on every adjacent pair in its range. -/
theorem chain_of_range_adjacent (R : ℕ → ℕ → Prop) (a cnt : ℕ)
    (h : ∀ i, a ≤ i → i + 1 < a + cnt → R i (i + 1)) :
    List.Chain' R (List.range' a cnt) := by
  induction cnt generalizing a with
  | zero => exact List.chain'_nil
  | succ c ih =>
    rw [show List.range' a (c + 1) = a :: List.range' (a + 1) c from rfl,
      List.chain'_cons']
    constructor
    · intro y hy
      cases c with
      | zero => simp at hy
      | succ c2 =>
        rw [show List.range' (a + 1) (c2 + 1) = (a + 1) :: List.range' (a + 2) c2
          from rfl] at hy
        simp only [List.head?_cons, Option.mem_def, Option.some.injEq] at hy
        subst hy
        exact h a (le_refl a) (by omega)
    · exact ih (a + 1) fun i hi hilt => h i (by omega) (by omega)

/-- Helper: in-range getD values are bounded by the Python max of the list. -/
theorem getD_le_listMax (ms : List ℚ) (i : ℕ) (hi : i < ms.length) :
    ms.getD i 0 ≤ Mcc1975.listMax ms := by
  rw [List.getD_eq_getElem?_getD, List.getElem?_eq_getElem hi, Option.getD_some]
  exact le_listMax ms _ (List.getElem_mem hi)

/-- Helper: the interpolated maturity at a nonnegative fractional position
lies between the two neighboring maturities. -/
theorem interp_bounds (ms : List ℚ) (hchain : List.Chain' (· ≤ ·) ms) (q : ℚ)
    (h0 : 0 ≤ q) (hr : (⌊q⌋).toNat + 1 < ms.length) :
    ms.getD (⌊q⌋).toNat 0 ≤ Mcc1975.interpMaturity ms q ∧
    Mcc1975.interpMaturity ms q ≤ ms.getD ((⌊q⌋).toNat + 1) 0 := by
  have hd : ms.getD (⌊q⌋).toNat 0 ≤ ms.getD ((⌊q⌋).toNat + 1) 0 :=
    chain_le_getD ms hchain _ _ (by omega) hr
  have hcast : ((⌊q⌋.toNat : ℚ)) = ((⌊q⌋ : ℤ) : ℚ) := by
    have h2 := Int.toNat_of_nonneg (Int.floor_nonneg.2 h0)
    exact_mod_cast congrArg (fun z : ℤ => (z : ℚ)) h2
  have hth0 : 0 ≤ q - ((⌊q⌋).toNat : ℚ) := by
    have h1 : ((⌊q⌋ : ℤ) : ℚ) ≤ q := Int.floor_le q
    rw [hcast]
    linarith
  have hth1 : q - ((⌊q⌋).toNat : ℚ) ≤ 1 := by
    have h1 : q < ((⌊q⌋ : ℤ) : ℚ) + 1 := Int.lt_floor_add_one q
    rw [hcast]
    linarith
  constructor
  · have hp := mul_nonneg hth0 (sub_nonneg.2 hd)
    unfold Mcc1975.interpMaturity
    linarith
  · have hp := mul_nonneg (by linarith : (0:ℚ) ≤ 1 - (q - ((⌊q⌋).toNat : ℚ)))
      (sub_nonneg.2 hd)
    unfold Mcc1975.interpMaturity
    nlinarith

/-- Helper: the interpolated maturity is monotone in the fractional
position over a nondecreasing maturity array. -/
theorem interp_mono (ms : List ℚ) (hchain : List.Chain' (· ≤ ·) ms) (q q' : ℚ)
    (h0 : 0 ≤ q) (hqq : q ≤ q') (hr : (⌊q'⌋).toNat + 1 < ms.length) :
    Mcc1975.interpMaturity ms q ≤ Mcc1975.interpMaturity ms q' := by
  have h0' : 0 ≤ q' := le_trans h0 hqq
  have hfl := Int.floor_le_floor hqq
  have hfl0 : 0 ≤ ⌊q⌋ := Int.floor_nonneg.2 h0
  have hrq : (⌊q⌋).toNat + 1 < ms.length := by omega
  rcases eq_or_lt_of_le hfl with heq | hlt
  · have hd : ms.getD (⌊q⌋).toNat 0 ≤ ms.getD ((⌊q⌋).toNat + 1) 0 :=
      chain_le_getD ms hchain _ _ (by omega) hrq
    unfold Mcc1975.interpMaturity
    rw [← heq]
    have hp := mul_nonneg (sub_nonneg.2 hqq) (sub_nonneg.2 hd)
    nlinarith
  · have h1 := (interp_bounds ms hchain q h0 hrq).2
    have h2 := (interp_bounds ms hchain q' h0' hr).1
    have hmid : ms.getD ((⌊q⌋).toNat + 1) 0 ≤ ms.getD (⌊q'⌋).toNat 0 := by
      apply chain_le_getD ms hchain _ _ ?_ (by omega)
      omega
    linarith

/-- Helper: the fractional knot position of get_nodes is nonnegative and
strictly below n - 1. -/
theorem get_nodes_qbound (n j : ℕ) (hn : 4 ≤ n) (hj2 : 2 ≤ j)
    (hjs : j < Nat.sqrt n) :
    0 ≤ ((j : ℚ) - 1) * (n : ℚ) / (((Nat.sqrt n + 1 : ℕ) : ℚ) - 2) ∧
    ((j : ℚ) - 1) * (n : ℚ) / (((Nat.sqrt n + 1 : ℕ) : ℚ) - 2) < (n : ℚ) - 1 := by
  have hs2 : 2 ≤ Nat.sqrt n := Nat.le_sqrt.2 (by omega)
  have hsn : Nat.sqrt n ≤ n := Nat.sqrt_le_self n
  have hs2q : (2 : ℚ) ≤ (Nat.sqrt n : ℚ) := by exact_mod_cast hs2
  have hden : (0 : ℚ) < ((Nat.sqrt n + 1 : ℕ) : ℚ) - 2 := by
    push_cast
    linarith
  constructor
  · apply div_nonneg _ (le_of_lt hden)
    have hj1 : (1 : ℚ) ≤ (j : ℚ) := by exact_mod_cast (by omega : 1 ≤ j)
    have hn0 : (0 : ℚ) ≤ (n : ℚ) := by positivity
    nlinarith
  · rw [div_lt_iff hden]
    have hj : (j : ℚ) ≤ (Nat.sqrt n : ℚ) - 1 := by
      have h1 : (j + 1 : ℕ) ≤ Nat.sqrt n := hjs
      have h2 := (Nat.cast_le (α := ℚ)).2 h1
      push_cast at h2
      linarith
    have hsnq : (Nat.sqrt n : ℚ) ≤ (n : ℚ) := by exact_mod_cast hsn
    have hn4 : (4 : ℚ) ≤ (n : ℚ) := by exact_mod_cast hn
    push_cast
    nlinarith [mul_le_mul_of_nonneg_right
      (by linarith : (j : ℚ) - 1 ≤ (Nat.sqrt n : ℚ) - 2) (by linarith : (0:ℚ) ≤ (n:ℚ))]

/-- Helper: the interior-knot interpolation index stays strictly inside the
maturity array. -/
theorem get_nodes_hbound (ms : List ℚ) (n j : ℕ) (hlen : ms.length = n)
    (hn : 4 ≤ n) (hj2 : 2 ≤ j) (hjs : j < Nat.sqrt n) :
    (⌊((j : ℚ) - 1) * (n : ℚ) / (((Nat.sqrt n + 1 : ℕ) : ℚ) - 2)⌋).toNat + 1
      < ms.length := by
  obtain ⟨hq0, hqlt⟩ := get_nodes_qbound n j hn hj2 hjs
  have hfl : ⌊((j : ℚ) - 1) * (n : ℚ) / (((Nat.sqrt n + 1 : ℕ) : ℚ) - 2)⌋ < (n : ℤ) - 1 := by
    rw [Int.floor_lt]
    push_cast at hqlt ⊢
    linarith
  have hfl0 : 0 ≤ ⌊((j : ℚ) - 1) * (n : ℚ) / (((Nat.sqrt n + 1 : ℕ) : ℚ) - 2)⌋ :=
    Int.floor_nonneg.2 hq0
  rw [hlen]
  omega

/-- C2 (amended): for a sample of at least 4 bonds with nondecreasing
nonnegative maturities, get_nodes sets ncoef = floor(sqrt(n_bonds)) + 1,
returns a knot vector of length ncoef - 1 holding ncoef - 3 interior knots
(not ncoef - 2 as the spec claims), the j-th interior knot being the linear
interpolation of the sorted maturity array at fractional position
j * n / (ncoef - 2); the vector starts at 0, ends at the maximum maturity,
and passes the basis validation (nondecreasing, length ncoef - 1). -/
theorem get_nodes_spec (n : ℕ) (ms : List ℚ) (hn : 4 ≤ n) (hlen : ms.length = n)
    (hchain : List.Chain' (· ≤ ·) ms) (hpos : ∀ x ∈ ms, 0 ≤ x) :
    (Mcc1975.get_nodes n ms).2 = Nat.sqrt n + 1 ∧
    (Mcc1975.get_nodes n ms).1.length = (Mcc1975.get_nodes n ms).2 - 1 ∧
    (Mcc1975.get_nodes n ms).1.length - 2 = (Mcc1975.get_nodes n ms).2 - 3 ∧
    (Mcc1975.get_nodes n ms).1.headD 1 = 0 ∧
    (Mcc1975.get_nodes n ms).1.getLast? = some (Mcc1975.listMax ms) ∧
    (∀ j, 1 ≤ j → j ≤ (Mcc1975.get_nodes n ms).2 - 3 →
      (Mcc1975.get_nodes n ms).1.getD j 0 =
        Mcc1975.interpMaturity ms
          ((j : ℚ) * (n : ℚ) / (((Mcc1975.get_nodes n ms).2 : ℚ) - 2))) ∧
    Mcc1975.validKnots (Mcc1975.get_nodes n ms).1 (Mcc1975.get_nodes n ms).2 = true := by
  have hs2 : 2 ≤ Nat.sqrt n := Nat.le_sqrt.2 (by omega)
  have hmslen : 0 < ms.length := by omega
  have hgn : Mcc1975.get_nodes n ms =
      (0 :: (((List.range' 2 (Nat.sqrt n - 2)).map fun (j : ℕ) =>
          Mcc1975.interpMaturity ms
            (((j : ℚ) - 1) * (n : ℚ) / (((Nat.sqrt n + 1 : ℕ) : ℚ) - 2))) ++
        [Mcc1975.listMax ms]), Nat.sqrt n + 1) := rfl
  have hLb : ∀ x ∈ (List.range' 2 (Nat.sqrt n - 2)).map fun (j : ℕ) =>
      Mcc1975.interpMaturity ms
        (((j : ℚ) - 1) * (n : ℚ) / (((Nat.sqrt n + 1 : ℕ) : ℚ) - 2)),
      0 ≤ x ∧ x ≤ Mcc1975.listMax ms := by
    intro x hx
    obtain ⟨j, hj, rfl⟩ := List.mem_map.1 hx
    obtain ⟨hj2, hjlt⟩ := List.mem_range'_1.1 hj
    have hjs : j < Nat.sqrt n := by omega
    obtain ⟨hq0, hqlt⟩ := get_nodes_qbound n j hn hj2 hjs
    have hr := get_nodes_hbound ms n j hlen hn hj2 hjs
    obtain ⟨hlow, hhigh⟩ := interp_bounds ms hchain _ hq0 hr
    exact ⟨le_trans (getD_nonneg ms hpos _) hlow,
      le_trans hhigh (getD_le_listMax ms _ (by omega))⟩
  have hTmax0 : 0 ≤ Mcc1975.listMax ms :=
    le_trans (getD_nonneg ms hpos 0) (getD_le_listMax ms 0 hmslen)
  have hchainL : List.Chain' (· ≤ ·)
      ((List.range' 2 (Nat.sqrt n - 2)).map fun (j : ℕ) =>
        Mcc1975.interpMaturity ms
          (((j : ℚ) - 1) * (n : ℚ) / (((Nat.sqrt n + 1 : ℕ) : ℚ) - 2))) := by
    rw [List.chain'_map]
    apply chain_of_range_adjacent
    intro i hi2 hilt
    have hi1s : i + 1 < Nat.sqrt n := by omega
    obtain ⟨hq0, _⟩ := get_nodes_qbound n i hn hi2 (by omega)
    have hr := get_nodes_hbound ms n (i + 1) hlen hn (by omega) hi1s
    apply interp_mono ms hchain _ _ hq0 ?_ hr
    have hden : (0 : ℚ) < ((Nat.sqrt n + 1 : ℕ) : ℚ) - 2 := by
      have : (2 : ℚ) ≤ (Nat.sqrt n : ℚ) := by exact_mod_cast hs2
      push_cast
      linarith
    rw [div_le_div_iff_of_pos_right hden]
    have hn0 : (0 : ℚ) ≤ (n : ℚ) := by positivity
    have : ((i : ℚ)) ≤ ((i + 1 : ℕ) : ℚ) := by push_cast; linarith
    nlinarith
  have hchainD : List.Chain' (· ≤ ·) (Mcc1975.get_nodes n ms).1 := by
    rw [hgn]
    rw [List.chain'_cons']
    constructor
    · intro y hy
      have hy' := List.mem_of_mem_head? hy
      rcases List.mem_append.1 hy' with hyL | hyT
      · exact (hLb y hyL).1
      · simp only [List.mem_singleton] at hyT
        subst hyT
        exact hTmax0
    · rw [List.chain'_append]
      refine ⟨hchainL, List.chain'_singleton _, ?_⟩
      intro x hx y hy
      simp only [List.head?_cons, Option.mem_def, Option.some.injEq] at hy
      subst hy
      exact (hLb x (List.mem_of_mem_getLast? hx)).2
  have hlen1 : (Mcc1975.get_nodes n ms).1.length = Nat.sqrt n := by
    rw [hgn]
    simp
    omega
  have hco : (Mcc1975.get_nodes n ms).2 = Nat.sqrt n + 1 := rfl
  refine ⟨hco, ?_, ?_, by rw [hgn]; rfl, ?_, ?_, ?_⟩
  · rw [hlen1, hco]
    omega
  · rw [hlen1, hco]
    omega
  · rw [hgn]
    rw [show (0 : ℚ) :: (((List.range' 2 (Nat.sqrt n - 2)).map fun (j : ℕ) =>
        Mcc1975.interpMaturity ms
          (((j : ℚ) - 1) * (n : ℚ) / (((Nat.sqrt n + 1 : ℕ) : ℚ) - 2))) ++
        [Mcc1975.listMax ms]) =
      ((0 : ℚ) :: ((List.range' 2 (Nat.sqrt n - 2)).map fun (j : ℕ) =>
        Mcc1975.interpMaturity ms
          (((j : ℚ) - 1) * (n : ℚ) / (((Nat.sqrt n + 1 : ℕ) : ℚ) - 2)))) ++
        [Mcc1975.listMax ms] from rfl]
    exact List.getLast?_concat _
  · intro j hj1 hjc
    have hjs : j ≤ Nat.sqrt n - 2 := by
      rw [hco] at hjc
      omega
    obtain ⟨j', rfl⟩ : ∃ j', j = j' + 1 := ⟨j - 1, by omega⟩
    rw [hgn]
    simp only [List.getD_cons_succ]
    have hj'lt : j' < ((List.range' 2 (Nat.sqrt n - 2)).map fun (j : ℕ) =>
        Mcc1975.interpMaturity ms
          (((j : ℚ) - 1) * (n : ℚ) / (((Nat.sqrt n + 1 : ℕ) : ℚ) - 2))).length := by
      simp only [List.length_map, List.length_range']
      omega
    rw [List.getD_append _ _ _ _ hj'lt]
    rw [List.getD_eq_getElem?_getD, List.getElem?_eq_getElem hj'lt, Option.getD_some]
    rw [List.getElem_map]
    congr 1
    rw [List.getElem_range'_1]
    push_cast
    ring
  · simp only [Mcc1975.validKnots, Bool.and_eq_true, decide_eq_true_eq]
    constructor
    · rw [hlen1, hco]
      omega
    · exact hchainD

/-- C2 witness: the amended theorem evaluated on a 9-bond sample with
maturities 1..9: ncoef = 4, the knot vector has length 3 with one interior
knot at fractional position 9/2, and validation passes. -/
theorem get_nodes_spec_witness :
    ((Mcc1975.get_nodes 9 [1, 2, 3, 4, 5, 6, 7, 8, 9]).2 = Nat.sqrt 9 + 1) ∧
    Mcc1975.validKnots (Mcc1975.get_nodes 9 [1, 2, 3, 4, 5, 6, 7, 8, 9]).1
      (Mcc1975.get_nodes 9 [1, 2, 3, 4, 5, 6, 7, 8, 9]).2 = true ∧
    (Mcc1975.get_nodes 9 [1, 2, 3, 4, 5, 6, 7, 8, 9]).1.getD 1 0 =
      Mcc1975.interpMaturity [1, 2, 3, 4, 5, 6, 7, 8, 9]
        ((1 : ℚ) * (9 : ℚ) / (((Mcc1975.get_nodes 9 [1, 2, 3, 4, 5, 6, 7, 8, 9]).2 : ℚ) - 2)) := by
  have h := get_nodes_spec 9 [1, 2, 3, 4, 5, 6, 7, 8, 9] (by norm_num) (by simp) ?_ ?_
  · refine ⟨h.1, h.2.2.2.2.2.2, ?_⟩
    apply h.2.2.2.2.2.1 1 (le_refl 1)
    have h9 : Nat.sqrt 9 = 3 := natSqrt_eq (by norm_num) (by norm_num)
    rw [h.1, h9]
  · simp only [List.chain'_cons, List.chain'_singleton]
    norm_num
  · intro x hx
    simp only [List.mem_cons, List.not_mem_nil, or_false] at hx
    rcases hx with rfl | rfl | rfl | rfl | rfl | rfl | rfl | rfl | rfl <;> norm_num

/-- Helper: when no tabulated time is positive, the T = 0 fill value is 0. -/
theorem spotFill_of_nonpos (l : List (ℝ × ℝ)) (h : ∀ p ∈ l, p.1 ≤ 0) :
    CurveConversions.spotFill l = 0 := by
  induction l with
  | nil => simp [CurveConversions.spotFill]
  | cons p rest ih =>
    rw [CurveConversions.spotFill, if_neg (not_lt.2 (h p (by simp)))]
    exact ih fun q hq => h q (by simp [hq])

/-- Helper: the T = 0 fill value is the rate at the first entry with a
positive time. -/
theorem spotFill_first (l : List (ℝ × ℝ)) :
    ∀ j (hj : j < l.length), 0 < (l[j]).1 →
      (∀ m, m < j → (l.getD m (0, 0)).1 ≤ 0) →
      CurveConversions.spotFill l = -Real.log (l[j]).2 / (l[j]).1 := by
  induction l with
  | nil => intro j hj; simp at hj
  | cons p rest ih =>
    intro j hj hpos hmin
    cases j with
    | zero =>
      simp only [List.getElem_cons_zero] at hpos ⊢
      rw [CurveConversions.spotFill, if_pos hpos]
    | succ j' =>
      have hp0 : p.1 ≤ 0 := by simpa using hmin 0 (by omega)
      simp only [List.getElem_cons_succ]
      rw [CurveConversions.spotFill, if_neg (not_lt.2 hp0)]
      exact ih j' (by simpa using hj) hpos fun m hm => by
        simpa using hmin (m + 1) (by omega)

/-- C5: on a validated curve (times nonnegative, arrays aligned), the spot
kernel returns -ln(D)/T at every positive-time row, fills every zero-time
row with the rate of the first positive-time row (ascending order), or
with 0 when no positive time exists, and makes no other modification. -/
theorem spot_rates_spec (T D : List ℝ) (hlen : T.length = D.length)
    (hT : ∀ t ∈ T, 0 ≤ t) :
    (CurveConversions.spot_rates_from_discount_cc T D).length = T.length ∧
    (∀ i, i < T.length → 0 < T.getD i 0 →
      (CurveConversions.spot_rates_from_discount_cc T D).getD i 0 =
        -Real.log (D.getD i 0) / T.getD i 0) ∧
    (∀ i, i < T.length → T.getD i 0 = 0 →
      ((∀ t ∈ T, t ≤ 0) →
        (CurveConversions.spot_rates_from_discount_cc T D).getD i 0 = 0) ∧
      (∀ j, j < T.length → 0 < T.getD j 0 → (∀ m, m < j → T.getD m 0 ≤ 0) →
        (CurveConversions.spot_rates_from_discount_cc T D).getD i 0 =
          -Real.log (D.getD j 0) / T.getD j 0)) := by
  have hzlen : (T.zip D).length = T.length := by
    rw [List.length_zip, hlen, min_self]
  have houtlen : (CurveConversions.spot_rates_from_discount_cc T D).length = T.length := by
    rw [CurveConversions.spot_rates_from_discount_cc, List.length_map, hzlen]
  have hget : ∀ i (hi : i < T.length),
      (CurveConversions.spot_rates_from_discount_cc T D).getD i 0 =
        (if 0 < T.getD i 0 then -Real.log (D.getD i 0) / T.getD i 0
         else CurveConversions.spotFill (T.zip D)) := by
    intro i hi
    have hiz : i < (T.zip D).length := by omega
    have hiD : i < D.length := by omega
    rw [CurveConversions.spot_rates_from_discount_cc, List.getD_eq_getElem?_getD,
      List.getElem?_eq_getElem (by simpa [hzlen] using hiz), Option.getD_some,
      List.getElem_map, List.getElem_zip]
    rw [List.getD_eq_getElem?_getD, List.getElem?_eq_getElem hi, Option.getD_some,
      List.getD_eq_getElem?_getD, List.getElem?_eq_getElem hiD, Option.getD_some]
  refine ⟨houtlen, ?_, ?_⟩
  · intro i hi hpos
    rw [hget i hi, if_pos hpos]
  · intro i hi hzero
    constructor
    · intro hall
      rw [hget i hi, if_neg (by rw [hzero]; exact lt_irrefl 0)]
      apply spotFill_of_nonpos
      intro p hp
      exact hall p.1 (List.mem_zip hp).1
    · intro j hj hjpos hjmin
      rw [hget i hi, if_neg (by rw [hzero]; exact lt_irrefl 0)]
      have hjz : j < (T.zip D).length := by omega
      have hjD : j < D.length := by omega
      have h1 : ((T.zip D)[j]).1 = T.getD j 0 := by
        rw [List.getElem_zip, List.getD_eq_getElem?_getD,
          List.getElem?_eq_getElem hj, Option.getD_some]
      have h2 : ((T.zip D)[j]).2 = D.getD j 0 := by
        rw [List.getElem_zip, List.getD_eq_getElem?_getD,
          List.getElem?_eq_getElem hjD, Option.getD_some]
      rw [spotFill_first (T.zip D) j hjz (by rw [h1]; exact hjpos) ?_, h1, h2]
      intro m hm
      have hmT : m < T.length := by omega
      have hmz : m < (T.zip D).length := by omega
      rw [List.getD_eq_getElem?_getD, List.getElem?_eq_getElem hmz, Option.getD_some,
        List.getElem_zip]
      have : T[m] = T.getD m 0 := by
        rw [List.getD_eq_getElem?_getD, List.getElem?_eq_getElem hmT, Option.getD_some]
      rw [this]
      exact hjmin m hm

/-- C5 witness: the round-trip example T = [0, 1, 2],
D = [1, e^(-1/20), e^(-4/25)]: the spot rates are [1/20, 1/20, 2/25], with
the T = 0 row filled from the first positive-time row. -/
theorem spot_rates_spec_witness :
    (CurveConversions.spot_rates_from_discount_cc [0, 1, 2]
      [1, Real.exp (-(1 / 20 : ℝ)), Real.exp (-(4 / 25 : ℝ))]).getD 1 0 = 1 / 20 ∧
    (CurveConversions.spot_rates_from_discount_cc [0, 1, 2]
      [1, Real.exp (-(1 / 20 : ℝ)), Real.exp (-(4 / 25 : ℝ))]).getD 2 0 = 2 / 25 ∧
    (CurveConversions.spot_rates_from_discount_cc [0, 1, 2]
      [1, Real.exp (-(1 / 20 : ℝ)), Real.exp (-(4 / 25 : ℝ))]).getD 0 0 = 1 / 20 := by
  have h := spot_rates_spec [0, 1, 2]
    [1, Real.exp (-(1 / 20 : ℝ)), Real.exp (-(4 / 25 : ℝ))] (by simp) ?_
  · refine ⟨?_, ?_, ?_⟩
    · have h1 := h.2.1 1 (by norm_num) (by norm_num)
      rw [show ([1, Real.exp (-(1 / 20 : ℝ)), Real.exp (-(4 / 25 : ℝ))]).getD 1 0 =
            Real.exp (-(1 / 20 : ℝ)) from rfl,
          show ([(0 : ℝ), 1, 2]).getD 1 0 = 1 from rfl] at h1
      rw [h1, Real.log_exp]
      norm_num
    · have h2 := h.2.1 2 (by norm_num) (by norm_num)
      rw [show ([1, Real.exp (-(1 / 20 : ℝ)), Real.exp (-(4 / 25 : ℝ))]).getD 2 0 =
            Real.exp (-(4 / 25 : ℝ)) from rfl,
          show ([(0 : ℝ), 1, 2]).getD 2 0 = 2 from rfl] at h2
      rw [h2, Real.log_exp]
      norm_num
    · have h0 := (h.2.2 0 (by norm_num) (by norm_num)).2 1 (by norm_num) (by norm_num) ?_
      · rw [show ([1, Real.exp (-(1 / 20 : ℝ)), Real.exp (-(4 / 25 : ℝ))]).getD 1 0 =
              Real.exp (-(1 / 20 : ℝ)) from rfl,
            show ([(0 : ℝ), 1, 2]).getD 1 0 = 1 from rfl] at h0
        rw [h0, Real.log_exp]
        norm_num
      · intro m hm
        interval_cases m
        norm_num
  · intro t ht
    simp only [List.mem_cons, List.not_mem_nil, or_false] at ht
    rcases ht with rfl | rfl | rfl <;> norm_num


/-- Helper: the second-order one-sided difference at the left edge is exact
on affine data. -/
theorem affine_edge_left (x0 x1 x2 b c : ℝ) (d1 : x1 - x0 ≠ 0) (d2 : x2 - x1 ≠ 0)
    (d3 : x1 - x0 + (x2 - x1) ≠ 0) :
    -(2 * (x1 - x0) + (x2 - x1)) / ((x1 - x0) * (x1 - x0 + (x2 - x1))) * (c + b * x0)
      + (x1 - x0 + (x2 - x1)) / ((x1 - x0) * (x2 - x1)) * (c + b * x1)
      + -(x1 - x0) / ((x2 - x1) * (x1 - x0 + (x2 - x1))) * (c + b * x2) = b := by
  have hB1 : (x1 - x0) * (x1 - x0 + (x2 - x1)) ≠ 0 := mul_ne_zero d1 d3
  have hB2 : (x1 - x0) * (x2 - x1) ≠ 0 := mul_ne_zero d1 d2
  have hB3 : (x2 - x1) * (x1 - x0 + (x2 - x1)) ≠ 0 := mul_ne_zero d2 d3
  rw [div_mul_eq_mul_div, div_mul_eq_mul_div, div_mul_eq_mul_div,
    div_add_div _ _ hB1 hB2, div_add_div _ _ (mul_ne_zero hB1 hB2) hB3,
    div_eq_iff (mul_ne_zero (mul_ne_zero hB1 hB2) hB3)]
  ring

/-- Helper: the second-order one-sided difference at the right edge is
exact on affine data. -/
theorem affine_edge_right (x0 x1 x2 b c : ℝ) (d1 : x1 - x0 ≠ 0) (d2 : x2 - x1 ≠ 0)
    (d3 : x1 - x0 + (x2 - x1) ≠ 0) :
    (x2 - x1) / ((x1 - x0) * (x1 - x0 + (x2 - x1))) * (c + b * x0)
      + -(x2 - x1 + (x1 - x0)) / ((x1 - x0) * (x2 - x1)) * (c + b * x1)
      + (2 * (x2 - x1) + (x1 - x0)) / ((x2 - x1) * (x1 - x0 + (x2 - x1))) * (c + b * x2)
      = b := by
  have hB1 : (x1 - x0) * (x1 - x0 + (x2 - x1)) ≠ 0 := mul_ne_zero d1 d3
  have hB2 : (x1 - x0) * (x2 - x1) ≠ 0 := mul_ne_zero d1 d2
  have hB3 : (x2 - x1) * (x1 - x0 + (x2 - x1)) ≠ 0 := mul_ne_zero d2 d3
  rw [div_mul_eq_mul_div, div_mul_eq_mul_div, div_mul_eq_mul_div,
    div_add_div _ _ hB1 hB2, div_add_div _ _ (mul_ne_zero hB1 hB2) hB3,
    div_eq_iff (mul_ne_zero (mul_ne_zero hB1 hB2) hB3)]
  ring

/-- Helper: the weighted central difference is exact on affine data. -/
theorem affine_central (x0 x1 x2 b c : ℝ) (d1 : x1 - x0 ≠ 0) (d2 : x2 - x1 ≠ 0)
    (d3 : x1 - x0 + (x2 - x1) ≠ 0) :
    -(x2 - x1) / ((x1 - x0) * (x1 - x0 + (x2 - x1))) * (c + b * x0)
      + (x2 - x1 - (x1 - x0)) / ((x1 - x0) * (x2 - x1)) * (c + b * x1)
      + (x1 - x0) / ((x2 - x1) * (x1 - x0 + (x2 - x1))) * (c + b * x2) = b := by
  have hB1 : (x1 - x0) * (x1 - x0 + (x2 - x1)) ≠ 0 := mul_ne_zero d1 d3
  have hB2 : (x1 - x0) * (x2 - x1) ≠ 0 := mul_ne_zero d1 d2
  have hB3 : (x2 - x1) * (x1 - x0 + (x2 - x1)) ≠ 0 := mul_ne_zero d2 d3
  rw [div_mul_eq_mul_div, div_mul_eq_mul_div, div_mul_eq_mul_div,
    div_add_div _ _ hB1 hB2, div_add_div _ _ (mul_ne_zero hB1 hB2) hB3,
    div_eq_iff (mul_ne_zero (mul_ne_zero hB1 hB2) hB3)]
  ring

/-- Helper: the first-order difference quotient is exact on affine data. -/
theorem affine_slope (x0 x1 b c : ℝ) (d1 : x1 - x0 ≠ 0) :
    ((c + b * x1) - (c + b * x0)) / (x1 - x0) = b := by
  rw [div_eq_iff d1]
  ring

/-- Helper: np.gradient is exact on affine data: when the values are an
affine function of the sample points (strictly increasing), every entry of
the gradient equals the slope, under the edge-order policy of
forward_rate_instant_cc. -/
theorem npGradient_affine (f x : List ℝ) (b c : ℝ) (hlen : f.length = x.length)
    (hn : 2 ≤ f.length)
    (hf : ∀ i, i < f.length → f.getD i 0 = c + b * x.getD i 0)
    (hsort : ∀ i, i + 1 < x.length → x.getD i 0 < x.getD (i + 1) 0) :
    ∀ i, i < f.length →
      (CurveConversions.npGradient f x (if 3 ≤ f.length then 2 else 1)).getD i 0 = b := by
  intro i hi
  have hval : (CurveConversions.npGradient f x (if 3 ≤ f.length then 2 else 1)).getD i 0 =
      (if i = 0 then
        if (if 3 ≤ f.length then 2 else 1) = 2 then
          -(2 * (x.getD 1 0 - x.getD 0 0) + (x.getD 2 0 - x.getD 1 0)) /
              ((x.getD 1 0 - x.getD 0 0) *
                (x.getD 1 0 - x.getD 0 0 + (x.getD 2 0 - x.getD 1 0))) * f.getD 0 0
            + (x.getD 1 0 - x.getD 0 0 + (x.getD 2 0 - x.getD 1 0)) /
                ((x.getD 1 0 - x.getD 0 0) * (x.getD 2 0 - x.getD 1 0)) * f.getD 1 0
            + -(x.getD 1 0 - x.getD 0 0) /
                ((x.getD 2 0 - x.getD 1 0) *
                  (x.getD 1 0 - x.getD 0 0 + (x.getD 2 0 - x.getD 1 0))) * f.getD 2 0
        else (f.getD 1 0 - f.getD 0 0) / (x.getD 1 0 - x.getD 0 0)
      else if i = f.length - 1 then
        if (if 3 ≤ f.length then 2 else 1) = 2 then
          (x.getD (f.length - 1) 0 - x.getD (f.length - 2) 0) /
              ((x.getD (f.length - 2) 0 - x.getD (f.length - 3) 0) *
                (x.getD (f.length - 2) 0 - x.getD (f.length - 3) 0 +
                  (x.getD (f.length - 1) 0 - x.getD (f.length - 2) 0))) *
              f.getD (f.length - 3) 0
            + -((x.getD (f.length - 1) 0 - x.getD (f.length - 2) 0) +
                  (x.getD (f.length - 2) 0 - x.getD (f.length - 3) 0)) /
                ((x.getD (f.length - 2) 0 - x.getD (f.length - 3) 0) *
                  (x.getD (f.length - 1) 0 - x.getD (f.length - 2) 0)) *
              f.getD (f.length - 2) 0
            + (2 * (x.getD (f.length - 1) 0 - x.getD (f.length - 2) 0) +
                  (x.getD (f.length - 2) 0 - x.getD (f.length - 3) 0)) /
                ((x.getD (f.length - 1) 0 - x.getD (f.length - 2) 0) *
                  (x.getD (f.length - 2) 0 - x.getD (f.length - 3) 0 +
                    (x.getD (f.length - 1) 0 - x.getD (f.length - 2) 0))) *
              f.getD (f.length - 1) 0
        else (f.getD (f.length - 1) 0 - f.getD (f.length - 2) 0) /
          (x.getD (f.length - 1) 0 - x.getD (f.length - 2) 0)
      else
        -(x.getD (i + 1) 0 - x.getD i 0) /
            ((x.getD i 0 - x.getD (i - 1) 0) *
              (x.getD i 0 - x.getD (i - 1) 0 + (x.getD (i + 1) 0 - x.getD i 0))) *
            f.getD (i - 1) 0
          + (x.getD (i + 1) 0 - x.getD i 0 - (x.getD i 0 - x.getD (i - 1) 0)) /
              ((x.getD i 0 - x.getD (i - 1) 0) * (x.getD (i + 1) 0 - x.getD i 0)) *
            f.getD i 0
          + (x.getD i 0 - x.getD (i - 1) 0) /
              ((x.getD (i + 1) 0 - x.getD i 0) *
                (x.getD i 0 - x.getD (i - 1) 0 + (x.getD (i + 1) 0 - x.getD i 0))) *
            f.getD (i + 1) 0) := by
    simp only [CurveConversions.npGradient]
    rw [List.getD_eq_getElem?_getD,
      List.getElem?_eq_getElem (by simpa using hi), Option.getD_some,
      List.getElem_map, List.getElem_range]
  rw [hval]
  by_cases h3 : 3 ≤ f.length
  · by_cases hi0 : i = 0
    · have h10 : x.getD 0 0 < x.getD 1 0 := hsort 0 (by omega)
      have h21 : x.getD 1 0 < x.getD 2 0 := hsort 1 (by omega)
      have d1 : x.getD 1 0 - x.getD 0 0 ≠ 0 := sub_ne_zero.2 (ne_of_gt h10)
      have d2 : x.getD 2 0 - x.getD 1 0 ≠ 0 := sub_ne_zero.2 (ne_of_gt h21)
      have d3 : x.getD 1 0 - x.getD 0 0 + (x.getD 2 0 - x.getD 1 0) ≠ 0 :=
        ne_of_gt (by linarith)
      rw [if_pos hi0, if_pos (by rw [if_pos h3])]
      rw [hf 0 (by omega), hf 1 (by omega), hf 2 (by omega)]
      exact affine_edge_left (x.getD 0 0) (x.getD 1 0) (x.getD 2 0) b c d1 d2 d3
    · by_cases hilast : i = f.length - 1
      · obtain ⟨m, hm⟩ : ∃ m, f.length = m + 3 := ⟨f.length - 3, by omega⟩
        have e1 : f.length - 3 = m := by omega
        have e2 : f.length - 2 = m + 1 := by omega
        have e3 : f.length - 1 = m + 2 := by omega
        have hA : x.getD m 0 < x.getD (m + 1) 0 := hsort m (by omega)
        have hB : x.getD (m + 1) 0 < x.getD (m + 2) 0 := hsort (m + 1) (by omega)
        have d1 : x.getD (m + 1) 0 - x.getD m 0 ≠ 0 := sub_ne_zero.2 (ne_of_gt hA)
        have d2 : x.getD (m + 2) 0 - x.getD (m + 1) 0 ≠ 0 := sub_ne_zero.2 (ne_of_gt hB)
        have d3 : x.getD (m + 1) 0 - x.getD m 0 +
            (x.getD (m + 2) 0 - x.getD (m + 1) 0) ≠ 0 := ne_of_gt (by linarith)
        rw [if_neg hi0, if_pos hilast, if_pos (by rw [if_pos h3]), e1, e2, e3]
        rw [hf m (by omega), hf (m + 1) (by omega), hf (m + 2) (by omega)]
        exact affine_edge_right (x.getD m 0) (x.getD (m + 1) 0) (x.getD (m + 2) 0)
          b c d1 d2 d3
      · have eA : i - 1 + 1 = i := by omega
        have hA : x.getD (i - 1) 0 < x.getD i 0 := by
          have := hsort (i - 1) (by omega)
          rwa [eA] at this
        have hB : x.getD i 0 < x.getD (i + 1) 0 := hsort i (by omega)
        have d1 : x.getD i 0 - x.getD (i - 1) 0 ≠ 0 := sub_ne_zero.2 (ne_of_gt hA)
        have d2 : x.getD (i + 1) 0 - x.getD i 0 ≠ 0 := sub_ne_zero.2 (ne_of_gt hB)
        have d3 : x.getD i 0 - x.getD (i - 1) 0 + (x.getD (i + 1) 0 - x.getD i 0) ≠ 0 :=
          ne_of_gt (by linarith)
        rw [if_neg hi0, if_neg hilast]
        rw [hf (i - 1) (by omega), hf i (by omega), hf (i + 1) (by omega)]
        exact affine_central (x.getD (i - 1) 0) (x.getD i 0) (x.getD (i + 1) 0)
          b c d1 d2 d3
  · have hlen2 : f.length = 2 := by omega
    have h10 : x.getD 0 0 < x.getD 1 0 := hsort 0 (by omega)
    have d1 : x.getD 1 0 - x.getD 0 0 ≠ 0 := sub_ne_zero.2 (ne_of_gt h10)
    by_cases hi0 : i = 0
    · rw [if_pos hi0, if_neg (by rw [if_neg h3]; norm_num)]
      rw [hf 0 (by omega), hf 1 (by omega)]
      exact affine_slope (x.getD 0 0) (x.getD 1 0) b c d1
    · have hilast : i = f.length - 1 := by omega
      have e3 : f.length - 1 = 1 := by omega
      have e2 : f.length - 2 = 0 := by omega
      rw [if_neg hi0, if_pos hilast, if_neg (by rw [if_neg h3]; norm_num), e3, e2]
      rw [hf 0 (by omega), hf 1 (by omega)]
      exact affine_slope (x.getD 0 0) (x.getD 1 0) b c d1

/-- Helper: in a strictly time-increasing pair list, the head time is below
every later time. -/
theorem chain_lt_head (l : List (ℝ × ℝ)) (p : ℝ × ℝ)
    (hchain : List.Chain' (fun a b : ℝ × ℝ => a.1 < b.1) (p :: l)) :
    ∀ j (hj : j < l.length), p.1 < (l[j]).1 := by
  induction l generalizing p with
  | nil => intro j hj; simp at hj
  | cons q rest ih =>
    intro j hj
    have hpq : p.1 < q.1 := (List.chain'_cons.1 hchain).1
    have htail := (List.chain'_cons.1 hchain).2
    cases j with
    | zero => simpa using hpq
    | succ j2 =>
      simp only [List.getElem_cons_succ]
      exact lt_trans hpq (ih q htail j2 (by simpa using hj))

/-- Helper: np.interp returns the tabulated value exactly at every
tabulated point of a strictly increasing table. -/
theorem npInterp_grid : ∀ (l : List (ℝ × ℝ)),
    List.Chain' (fun a b : ℝ × ℝ => a.1 < b.1) l →
    ∀ j (hj : j < l.length), CurveConversions.npInterp (l[j]).1 l = (l[j]).2 := by
  intro l
  induction l with
  | nil => intro _ j hj; simp at hj
  | cons p rest ih =>
    intro hchain j hj
    cases rest with
    | nil =>
      cases j with
      | zero => simp [CurveConversions.npInterp]
      | succ j2 => simp at hj
    | cons q rest2 =>
      cases j with
      | zero =>
        simp only [List.getElem_cons_zero]
        rw [CurveConversions.npInterp, if_pos (le_refl p.1)]
      | succ j' =>
        have hj1 : j' < (q :: rest2).length := by simpa using hj
        have hx : p.1 < ((q :: rest2)[j']).1 :=
          chain_lt_head (q :: rest2) p hchain j' hj1
        have htail := (List.chain'_cons.1 hchain).2
        simp only [List.getElem_cons_succ] at hx ⊢
        rw [CurveConversions.npInterp, if_neg (not_le.2 hx)]
        cases j' with
        | zero =>
          simp only [List.getElem_cons_zero] at hx ⊢
          rw [if_pos (le_refl q.1)]
          have hne : q.1 - p.1 ≠ 0 := sub_ne_zero.2 (ne_of_gt hx)
          have h2 : (q.1 - p.1) * (q.2 - p.2) / (q.1 - p.1) = q.2 - p.2 :=
            mul_div_cancel_left₀ _ hne
          rw [h2]
          ring
        | succ j2 =>
          have hj3 : j2 < rest2.length := by simpa using hj
          have hqx : q.1 < (rest2[j2]).1 :=
            chain_lt_head rest2 q htail j2 hj3
          simp only [List.getElem_cons_succ] at hx ⊢
          rw [if_neg (not_le.2 hqx)]
          have := ih htail (j2 + 1) (by simpa using hj)
          simpa using this

/-- C4 (amended): on a flat curve D = exp(-rT) with strictly increasing
times, the instantaneous forward equals r at every tabulated point, and
the discrete forward over [T, T+dt] equals r at every tabulated point T
whose shifted time T + dt is itself a tabulated time of the curve. -/
theorem forward_rates_flat_curve (r dt : ℝ) (T D : List ℝ)
    (hD : D = T.map fun t => Real.exp (-(r * t)))
    (hdt : 0 < dt) (hn : 2 ≤ T.length)
    (hsort : ∀ i, i + 1 < T.length → T.getD i 0 < T.getD (i + 1) 0) :
    (∀ i, i < T.length →
      (CurveConversions.forward_rate_instant_cc T D).getD i 0 = r) ∧
    (∀ res, CurveConversions.forward_rate_discrete_cc dt T D = Except.ok res →
      ∀ i j, i < T.length → j < T.length → T.getD j 0 = T.getD i 0 + dt →
        res.getD i 0 = r) := by
  have hDlen : D.length = T.length := by rw [hD, List.length_map]
  constructor
  · intro i hi
    have hlog_len : (D.map Real.log).length = T.length := by
      rw [List.length_map, hDlen]
    have hf : ∀ k, k < (D.map Real.log).length →
        (D.map Real.log).getD k 0 = 0 + (-r) * T.getD k 0 := by
      intro k hk
      rw [hlog_len] at hk
      have hkD : k < D.length := by omega
      rw [List.getD_eq_getElem (D.map Real.log) 0 (by rw [List.length_map]; omega),
        List.getElem_map]
      have : D[k] = Real.exp (-(r * T.getD k 0)) := by
        rw [List.getD_eq_getElem T 0 hk]
        simp only [hD, List.getElem_map]
      rw [this, Real.log_exp]
      ring
    have hgrad := npGradient_affine (D.map Real.log) T (-r) 0
      (by rw [hlog_len]) (by omega) hf hsort i (by rw [hlog_len]; omega)
    have heo : (if 3 ≤ T.length then 2 else 1) =
        (if 3 ≤ (D.map Real.log).length then 2 else 1) := by rw [hlog_len]
    have hglen : (CurveConversions.npGradient (D.map Real.log) T
        (if 3 ≤ (D.map Real.log).length then 2 else 1)).length = T.length := by
      simp only [CurveConversions.npGradient, List.length_map, List.length_range]
      exact hDlen
    rw [CurveConversions.forward_rate_instant_cc]
    rw [heo]
    rw [List.getD_eq_getElem _ 0 (by rw [List.length_map, hglen]; omega),
      List.getElem_map]
    have higl : i < (CurveConversions.npGradient (D.map Real.log) T
        (if 3 ≤ (D.map Real.log).length then 2 else 1)).length := by
      rw [hglen]; omega
    have : (CurveConversions.npGradient (D.map Real.log) T
        (if 3 ≤ (D.map Real.log).length then 2 else 1))[i] =
        -r := by
      rw [← List.getD_eq_getElem _ 0]
      exact hgrad
    rw [this]
    ring
  · intro res hres i j hi hj hT2
    rw [CurveConversions.forward_rate_discrete_cc, if_neg (not_le.2 hdt)] at hres
    injection hres with hres
    subst hres
    have hzlen : (T.zip D).length = T.length := by
      rw [List.length_zip, hDlen, min_self]
    have hchainz : List.Chain' (fun a b : ℝ × ℝ => a.1 < b.1) (T.zip D) := by
      rw [List.chain'_iff_get]
      intro k hk
      simp only [List.get_eq_getElem, List.getElem_zip]
      have hk1 : k + 1 < T.length := by omega
      have := hsort k hk1
      rwa [List.getD_eq_getElem T 0 (by omega), List.getD_eq_getElem T 0 hk1] at this
    have hjz : j < (T.zip D).length := by omega
    have hx1 : ((T.zip D)[j]).1 = T.getD j 0 := by
      rw [List.getElem_zip, List.getD_eq_getElem T 0 hj]
    have hx2 : ((T.zip D)[j]).2 = D.getD j 0 := by
      rw [List.getElem_zip, List.getD_eq_getElem D 0 (by omega)]
    have hinterp := npInterp_grid (T.zip D) hchainz j (by omega)
    rw [hx1, hx2, hT2] at hinterp
    have hval : (CurveConversions.forwardDiscreteVals dt T D).getD i 0 =
        (Real.log (D.getD i 0) -
          Real.log (CurveConversions.npInterp (T.getD i 0 + dt) (T.zip D))) / dt := by
      simp only [CurveConversions.forwardDiscreteVals]
      rw [List.getD_eq_getElem _ 0 (by simpa using hi), List.getElem_map,
        List.getElem_range]
    rw [hval, hinterp]
    have hDk : ∀ k, k < T.length → D.getD k 0 = Real.exp (-(r * T.getD k 0)) := by
      intro k hk
      rw [List.getD_eq_getElem D 0 (by omega), List.getD_eq_getElem T 0 hk]
      simp only [hD, List.getElem_map]
    rw [hDk i hi, hDk j hj, Real.log_exp, Real.log_exp, hT2]
    field_simp
    ring

/-- C4 counterexample: on the flat curve with r = 1 over T = [0, 1] and
dt = 1, np.interp clamps D(T + dt) beyond the last tabulated time, so the
discrete forward at the last point is 0, not r: the original claim that
forward_rate_discrete_cc returns r at every point of the curve is false. -/
theorem forward_discrete_flat_curve_counterexample :
    CurveConversions.forward_rate_discrete_cc 1 [0, 1]
        ([0, 1].map fun t => Real.exp (-(1 * t))) = Except.ok [1, 0] ∧
    (0 : ℝ) ≠ 1 := by
  refine ⟨?_, by norm_num⟩
  rw [CurveConversions.forward_rate_discrete_cc, if_neg (by norm_num)]
  have hr2 : List.range 2 = [0, 1] := rfl
  simp only [CurveConversions.forwardDiscreteVals, List.map_cons, List.map_nil,
    List.length_cons, List.length_nil, hr2, List.zip_cons_cons, List.zip_nil_right,
    List.getD_cons_zero, List.getD_cons_succ]
  norm_num [CurveConversions.npInterp, Real.exp_zero, Real.log_exp]

/-- C4 witness: the amended theorem evaluated on the flat r = 1 curve over
T = [0, 1, 2] with dt = 1: the instantaneous forward at the first point is
1, and the discrete forward at the first point (whose shifted time 1 is
tabulated) is 1. -/
theorem forward_rates_flat_curve_witness :
    (CurveConversions.forward_rate_instant_cc [0, 1, 2]
      ([0, 1, 2].map fun t => Real.exp (-(1 * t)))).getD 0 0 = 1 ∧
    (CurveConversions.forwardDiscreteVals 1 [0, 1, 2]
      ([0, 1, 2].map fun t => Real.exp (-(1 * t)))).getD 0 0 = 1 := by
  have h := forward_rates_flat_curve 1 1 [0, 1, 2]
    ([0, 1, 2].map fun t => Real.exp (-(1 * t))) rfl (by norm_num) (by norm_num) ?_
  · constructor
    · exact h.1 0 (by norm_num)
    · refine h.2 (CurveConversions.forwardDiscreteVals 1 [0, 1, 2]
        ([0, 1, 2].map fun t => Real.exp (-(1 * t)))) ?_ 0 1 (by norm_num)
        (by norm_num) ?_
      · rw [CurveConversions.forward_rate_discrete_cc, if_neg (by norm_num)]
      · rw [show ([0, 1, 2] : List ℝ).getD 1 0 = 1 from rfl,
          show ([0, 1, 2] : List ℝ).getD 0 0 = 0 from rfl]
        norm_num
  · intro i hi
    have hi2 : i < 2 := by simp at hi; omega
    interval_cases i
    · rw [show ([0, 1, 2] : List ℝ).getD 0 0 = 0 from rfl,
        show ([0, 1, 2] : List ℝ).getD 1 0 = 1 from rfl]
      norm_num
    · rw [show ([0, 1, 2] : List ℝ).getD 1 0 = 1 from rfl,
        show ([0, 1, 2] : List ℝ).getD 2 0 = 2 from rfl]
      norm_num

/-- Helper: the cashflow amount at slot i of the schedule array: the stub
overwrite wins at slot 0, then the face is added at the final slot. -/
theorem scheduleAmounts_getD (n : ℕ) (c face r : ℚ) (b : Bool) (i : ℕ)
    (h : i < n) :
    (CurveFittingUtils.scheduleAmounts n c face r b).getD i 0 =
      if b = true ∧ i = 0 then c * r else if i = n - 1 then c + face else c := by
  rw [CurveFittingUtils.scheduleAmounts,
    List.getD_eq_getElem _ 0 (by simpa using h), List.getElem_map,
    List.getElem_range]

/-- Helper: the schedule array has one slot per payment date. -/
theorem scheduleAmounts_length (n : ℕ) (c face r : ℚ) (b : Bool) :
    (CurveFittingUtils.scheduleAmounts n c face r b).length = n := by
  simp [CurveFittingUtils.scheduleAmounts]

/-- C8 counterexample: the stub bond (settle 2000-02-01, maturity
2001-01-15, first coupon 2000-07-15, issued 2000-05-01, 5 percent
semiannual, face 100) has first cashflow 5/2 * 75/182 = 375/364, not the
regular coupon amount face*coupon/100/freq = 5/2: the first payment of a
short-stub bond is rescaled by stub_days/regular_days. -/
theorem stub_bond_counterexample :
    CurveFittingUtils.bondCashflows CurveFittingUtils.stubBondRow 100 2 3 5 =
      Except.ok ([375 / 364, 205 / 2], [33 / 73, 349 / 365]) ∧
    (375 / 364 : ℚ) ≠ 100 * (5 / 100) / 2 := by
  refine ⟨?_, by norm_num⟩
  have hc : (0 : ℚ) <
      100 * (CurveFittingUtils.stubBondRow.coupon / 100) / ((2 : ℕ) : ℚ) := by
    norm_num [CurveFittingUtils.stubBondRow]
  simp only [CurveFittingUtils.bondCashflows]
  rw [if_pos hc]
  show Except.ok
      ([100 * ((5 : ℚ) / 100) / ((2 : ℕ) : ℚ) * (((75 : ℤ) : ℚ) / ((182 : ℤ) : ℚ)),
        100 * ((5 : ℚ) / 100) / ((2 : ℕ) : ℚ) + 100],
       [((165 : ℤ) : ℚ) / 365, ((349 : ℤ) : ℚ) / 365]) =
    Except.ok ([375 / 364, 205 / 2], [33 / 73, 349 / 365])
  norm_num

/-- C8 (amended): for a bond with positive coupon amount c =
face*coupon/100/freq whose schedule build succeeds: when the forward
payment-date list is empty the schedule is the single payment c + face at
maturity; otherwise, when the stub adjustment does not trigger every
non-final payment is c and the final payment is c + face, and when it does
trigger the first payment is c * (stub_days/regular_days), every other
non-final payment is c, and the final payment is c + face provided it is
not itself the (overwritten) first payment. -/
theorem cashflow_schedule_amounts (row : CurveFittingUtils.BondRow) (face : ℚ)
    (freq : ℕ) (stubTol : ℤ) (fuel : ℕ) (fc : CivDate) (cf ts : List ℚ)
    (hc : 0 < face * (row.coupon / 100) / (freq : ℚ))
    (hfc : CurveFittingUtils.resolvedFirstCoupon row (12 / freq) fuel = some fc)
    (hok : CurveFittingUtils.bondCashflows row face freq stubTol fuel =
      Except.ok (cf, ts)) :
    (CurveFittingUtils.paymentDates row.date row.maturity_date
        (decide (fc = monthEnd0 fc)) (12 / freq) fc fuel = [] →
      cf = [face * (row.coupon / 100) / (freq : ℚ) + face]) ∧
    (∀ d ds, CurveFittingUtils.paymentDates row.date row.maturity_date
        (decide (fc = monthEnd0 fc)) (12 / freq) fc fuel = d :: ds →
      ((CurveFittingUtils.stubInfo d (decide (fc = monthEnd0 fc)) (12 / freq)
          row.issue_date stubTol).1 = false →
        (∀ i, i + 1 < cf.length →
          cf.getD i 0 = face * (row.coupon / 100) / (freq : ℚ)) ∧
        cf.getD (cf.length - 1) 0 =
          face * (row.coupon / 100) / (freq : ℚ) + face) ∧
      ((CurveFittingUtils.stubInfo d (decide (fc = monthEnd0 fc)) (12 / freq)
          row.issue_date stubTol).1 = true →
        cf.getD 0 0 = face * (row.coupon / 100) / (freq : ℚ) *
          (CurveFittingUtils.stubInfo d (decide (fc = monthEnd0 fc)) (12 / freq)
            row.issue_date stubTol).2 ∧
        (∀ i, 0 < i → i + 1 < cf.length →
          cf.getD i 0 = face * (row.coupon / 100) / (freq : ℚ)) ∧
        (ds ≠ [] → cf.getD (cf.length - 1) 0 =
          face * (row.coupon / 100) / (freq : ℚ) + face))) := by
  simp only [CurveFittingUtils.bondCashflows, hfc, if_pos hc] at hok
  refine ⟨?_, ?_⟩
  · intro hnil
    rw [hnil] at hok
    simp only [Except.ok.injEq, Prod.mk.injEq] at hok
    exact hok.1.symm
  · intro d ds hcons
    rw [hcons] at hok
    simp only [Except.ok.injEq, Prod.mk.injEq] at hok
    obtain ⟨hcf, -⟩ := hok
    subst hcf
    have hlen : (CurveFittingUtils.scheduleAmounts (d :: ds).length
        (face * (row.coupon / 100) / (freq : ℚ)) face
        (CurveFittingUtils.stubInfo d (decide (fc = monthEnd0 fc)) (12 / freq)
          row.issue_date stubTol).2
        (CurveFittingUtils.stubInfo d (decide (fc = monthEnd0 fc)) (12 / freq)
          row.issue_date stubTol).1).length = ds.length + 1 := by
      rw [scheduleAmounts_length, List.length_cons]
    refine ⟨?_, ?_⟩
    · intro hstub
      rw [hlen]
      refine ⟨?_, ?_⟩
      · intro i hi
        rw [scheduleAmounts_getD _ _ _ _ _ i (by simp; omega), hstub]
        rw [if_neg (by simp), if_neg (by simp; omega)]
      · rw [scheduleAmounts_getD _ _ _ _ _ (ds.length + 1 - 1) (by simp), hstub]
        rw [if_neg (by simp), if_pos (by simp)]
    · intro hstub
      rw [hlen]
      refine ⟨?_, ?_, ?_⟩
      · rw [scheduleAmounts_getD _ _ _ _ _ 0 (by simp), hstub]
        rw [if_pos ⟨rfl, rfl⟩]
      · intro i hpos hi
        rw [scheduleAmounts_getD _ _ _ _ _ i (by simp; omega), hstub]
        rw [if_neg (by omega), if_neg (by simp; omega)]
      · intro hne
        have h1 : 1 ≤ ds.length := by
          cases ds with
          | nil => exact absurd rfl hne
          | cons a l => simp
        rw [scheduleAmounts_getD _ _ _ _ _ (ds.length + 1 - 1) (by simp), hstub]
        rw [if_neg (by rintro ⟨-, h2⟩; omega), if_pos (by simp)]

/-- C8 witness: the regular two-year 5 percent semiannual bond (no stub)
evaluated through the amended theorem: the interior payment at slot 1 is
the coupon amount 5/2 and the final payment at slot 3 is 5/2 + 100. -/
theorem cashflow_schedule_amounts_witness :
    ([5 / 2, 5 / 2, 5 / 2, 205 / 2] : List ℚ).getD 1 0 =
      100 * (CurveFittingUtils.regularBondRow.coupon / 100) / ((2 : ℕ) : ℚ) ∧
    ([5 / 2, 5 / 2, 5 / 2, 205 / 2] : List ℚ).getD 3 0 =
      100 * (CurveFittingUtils.regularBondRow.coupon / 100) / ((2 : ℕ) : ℚ) + 100 := by
  have hc : (0 : ℚ) <
      100 * (CurveFittingUtils.regularBondRow.coupon / 100) / ((2 : ℕ) : ℚ) := by
    norm_num [CurveFittingUtils.regularBondRow]
  have hok : CurveFittingUtils.bondCashflows CurveFittingUtils.regularBondRow
      100 2 3 6 = Except.ok ([5 / 2, 5 / 2, 5 / 2, 205 / 2],
        [182 / 365, 366 / 365, 547 / 365, 731 / 365]) := by
    simp only [CurveFittingUtils.bondCashflows]
    rw [if_pos hc]
    show Except.ok
        ([100 * ((5 : ℚ) / 100) / ((2 : ℕ) : ℚ),
          100 * ((5 : ℚ) / 100) / ((2 : ℕ) : ℚ),
          100 * ((5 : ℚ) / 100) / ((2 : ℕ) : ℚ),
          100 * ((5 : ℚ) / 100) / ((2 : ℕ) : ℚ) + 100],
         [((182 : ℤ) : ℚ) / 365, ((366 : ℤ) : ℚ) / 365,
          ((547 : ℤ) : ℚ) / 365, ((731 : ℤ) : ℚ) / 365]) =
      Except.ok ([5 / 2, 5 / 2, 5 / 2, 205 / 2],
        [182 / 365, 366 / 365, 547 / 365, 731 / 365])
    norm_num
  have h := cashflow_schedule_amounts CurveFittingUtils.regularBondRow 100 2 3 6
    ⟨2000, 7, 15⟩ [5 / 2, 5 / 2, 5 / 2, 205 / 2]
    [182 / 365, 366 / 365, 547 / 365, 731 / 365] hc rfl hok
  have h2 := (h.2 ⟨2000, 7, 15⟩ [⟨2001, 1, 15⟩, ⟨2001, 7, 15⟩, ⟨2002, 1, 15⟩]
    rfl).1 rfl
  refine ⟨h2.1 1 (by norm_num), ?_⟩
  have h3 := h2.2
  simpa using h3

/-- Helper: appending one value per row and then dropping the last entry of
every row restores the original rows. -/
theorem dropLast_zipWith_append (rs : List (List ℚ)) (vs : List ℚ)
    (h : rs.length ≤ vs.length) :
    (List.zipWith (fun r v => r ++ [v]) rs vs).map List.dropLast = rs := by
  induction rs generalizing vs with
  | nil => simp
  | cons r rs ih =>
    cases vs with
    | nil => simp at h
    | cons v vs =>
      simp only [List.zipWith_cons_cons, List.map_cons, List.dropLast_concat]
      rw [ih vs (by simpa using h)]

/-- C9: the shared converter skeleton (copy, sort ascending by the time
column, assign one output column) preserves the frame: the output columns
are the input columns plus exactly one new column on the right, dropping
that new column from every output row gives exactly the input rows sorted
ascending by the time column (a permutation of the input rows), the output
rows are ascending in the time column, and the new column holds the
computed series.  All four converters instantiate this skeleton. -/
theorem converter_frame_spec {κ : Type} [DecidableEq κ]
    (fr : CurveConversions.QFrame κ) (tIdx : ℕ) (outName : κ)
    (kernel : List (List ℚ) → List ℚ)
    (hout : outName ∉ fr.cols)
    (hklen : (kernel (CurveConversions.sortRowsBy tIdx fr.rows)).length =
      fr.rows.length)
    (hrows : ∀ r ∈ fr.rows, r.length = fr.cols.length)
    (htIdx : tIdx < fr.cols.length) :
    (CurveConversions.curveConvertFrame fr tIdx outName kernel).cols =
      fr.cols ++ [outName] ∧
    (CurveConversions.curveConvertFrame fr tIdx outName kernel).rows.map
        List.dropLast = CurveConversions.sortRowsBy tIdx fr.rows ∧
    (CurveConversions.sortRowsBy tIdx fr.rows).Perm fr.rows ∧
    (CurveConversions.curveConvertFrame fr tIdx outName kernel).rows.Pairwise
      (fun a b => CurveConversions.rowKey tIdx a ≤ CurveConversions.rowKey tIdx b) ∧
    ∀ i, i < (CurveConversions.curveConvertFrame fr tIdx outName kernel).rows.length →
      ((CurveConversions.curveConvertFrame fr tIdx outName kernel).rows.getD i
        []).getLast? =
        some ((kernel (CurveConversions.sortRowsBy tIdx fr.rows)).getD i 0) := by
  have hperm : (CurveConversions.sortRowsBy tIdx fr.rows).Perm fr.rows :=
    List.perm_insertionSort _ _
  have hslen : (CurveConversions.sortRowsBy tIdx fr.rows).length = fr.rows.length :=
    hperm.length_eq
  have hcc : CurveConversions.curveConvertFrame fr tIdx outName kernel =
      ⟨fr.cols ++ [outName],
        List.zipWith (fun r v => r ++ [v]) (CurveConversions.sortRowsBy tIdx fr.rows)
          (kernel (CurveConversions.sortRowsBy tIdx fr.rows))⟩ := by
    simp only [CurveConversions.curveConvertFrame, CurveConversions.setCol]
    rw [if_neg hout]
  have hzlen : (List.zipWith (fun (r : List ℚ) v => r ++ [v])
      (CurveConversions.sortRowsBy tIdx fr.rows)
      (kernel (CurveConversions.sortRowsBy tIdx fr.rows))).length =
      fr.rows.length := by
    rw [List.length_zipWith, hklen, hslen, min_self]
  have hrowlen : ∀ k (hk : k < (CurveConversions.sortRowsBy tIdx fr.rows).length),
      tIdx < ((CurveConversions.sortRowsBy tIdx fr.rows)[k]).length := by
    intro k hk
    have hmem : (CurveConversions.sortRowsBy tIdx fr.rows)[k] ∈ fr.rows :=
      hperm.subset (List.getElem_mem hk)
    rw [hrows _ hmem]
    exact htIdx
  refine ⟨?_, ?_, hperm, ?_, ?_⟩
  · rw [hcc]
  · rw [hcc]
    exact dropLast_zipWith_append _ _ (le_of_eq (by rw [hslen, hklen]))
  · rw [hcc]
    have hp : List.Pairwise (fun a b => CurveConversions.rowKey tIdx a ≤
        CurveConversions.rowKey tIdx b) (CurveConversions.sortRowsBy tIdx fr.rows) := by
      haveI h1 : IsTotal (List ℚ) (fun a b => CurveConversions.rowKey tIdx a ≤
          CurveConversions.rowKey tIdx b) := ⟨fun a b => le_total _ _⟩
      haveI h2 : IsTrans (List ℚ) (fun a b => CurveConversions.rowKey tIdx a ≤
          CurveConversions.rowKey tIdx b) := ⟨fun a b c hab hbc => le_trans hab hbc⟩
      exact List.sorted_insertionSort _ _
    rw [List.pairwise_iff_getElem] at hp ⊢
    intro i j hi hj hij
    have hi2 : i < fr.rows.length := by rw [← hzlen]; exact hi
    have hj2 : j < fr.rows.length := by rw [← hzlen]; exact hj
    have hii : i < (CurveConversions.sortRowsBy tIdx fr.rows).length := by
      rw [hslen]; exact hi2
    have hjj : j < (CurveConversions.sortRowsBy tIdx fr.rows).length := by
      rw [hslen]; exact hj2
    simp only [List.getElem_zipWith]
    have hki : i < (kernel (CurveConversions.sortRowsBy tIdx fr.rows)).length := by
      rw [hklen]; exact hi2
    have hkj : j < (kernel (CurveConversions.sortRowsBy tIdx fr.rows)).length := by
      rw [hklen]; exact hj2
    have hkeyi : CurveConversions.rowKey tIdx
        ((CurveConversions.sortRowsBy tIdx fr.rows)[i] ++
          [(kernel (CurveConversions.sortRowsBy tIdx fr.rows))[i]]) =
        CurveConversions.rowKey tIdx ((CurveConversions.sortRowsBy tIdx fr.rows)[i]) := by
      rw [CurveConversions.rowKey, CurveConversions.rowKey,
        List.getD_append _ _ _ _ (hrowlen i hii)]
    have hkeyj : CurveConversions.rowKey tIdx
        ((CurveConversions.sortRowsBy tIdx fr.rows)[j] ++
          [(kernel (CurveConversions.sortRowsBy tIdx fr.rows))[j]]) =
        CurveConversions.rowKey tIdx ((CurveConversions.sortRowsBy tIdx fr.rows)[j]) := by
      rw [CurveConversions.rowKey, CurveConversions.rowKey,
        List.getD_append _ _ _ _ (hrowlen j hjj)]
    rw [hkeyi, hkeyj]
    exact hp i j hii hjj hij
  · intro i hi
    have hi2 : i < fr.rows.length := by rw [hcc, hzlen] at hi; exact hi
    have hik : i < (kernel (CurveConversions.sortRowsBy tIdx fr.rows)).length := by
      rw [hklen]; exact hi2
    rw [hcc]
    rw [List.getD_eq_getElem _ [] (by rw [hzlen]; exact hi2), List.getElem_zipWith,
      List.getLast?_concat, List.getD_eq_getElem _ 0 hik]

/-- C9 witness: the skeleton evaluated on a concrete two-row frame with
columns [0, 1], time column 0 and constant kernel [7, 8]: the output
columns are [0, 1, 5] and the first output row (the time-1 input row,
sorted first) ends in the kernel value 7. -/
theorem converter_frame_spec_witness :
    (CurveConversions.curveConvertFrame
        (⟨[0, 1], [[2, 10], [1, 20]]⟩ : CurveConversions.QFrame ℕ) 0 5
        (fun _ => [7, 8])).cols = [0, 1, 5] ∧
    ((CurveConversions.curveConvertFrame
        (⟨[0, 1], [[2, 10], [1, 20]]⟩ : CurveConversions.QFrame ℕ) 0 5
        (fun _ => [7, 8])).rows.getD 0 []).getLast? = some 7 := by
  have h := converter_frame_spec
    (⟨[0, 1], [[2, 10], [1, 20]]⟩ : CurveConversions.QFrame ℕ) 0 5
    (fun _ => [7, 8]) (by decide) rfl ?_ (by decide)
  · refine ⟨h.1.trans rfl, ?_⟩
    have h5 := h.2.2.2.2 0 ?_
    · exact h5.trans rfl
    · decide
  · intro r hr
    simp only [List.mem_cons, List.not_mem_nil, or_false] at hr
    rcases hr with hr | hr <;> subst hr <;> rfl
